import Mathlib

/-!
Verification development for the bevy_tmx TMX parser and geometry engine.

The Rust sources are shallowly embedded:
* machine integers `u32` / `i32` become `Nat` / `Int`; Rust `i32` division and
  remainder (which truncate toward zero and panic on a zero divisor) become
  `Int.tdiv` / `Int.tmod` guarded by an `Option` when the divisor is not a
  literal constant;
* `u32` subtraction (which panics on underflow) becomes a checked subtraction
  returning `Option Nat`;
* fallible Rust code (`Result`, `panic!`, `todo!`, `unreachable!`) returns
  `Option`;
* the `f32` fields of the data model (parallax factors, tint colors, opacity,
  tile sizes) are represented by a type parameter `S`; the parser's calls into
  external crates (`str::parse::<f32>`, base64, zlib/gzip inflation) become
  function parameters, since their implementations live outside this crate;
* Rust `&str` values that are processed character by character become
  `List Char`; XML attributes become association lists of strings.
-/

/-- Checked truncating division, the semantics of Rust `i32 /`:
truncation toward zero, `none` on a zero divisor (Rust panics). -/
def cdiv (a b : Int) : Option Int :=
  if b = 0 then none else some (a.tdiv b)

/-- Checked remainder, the semantics of Rust `i32 %`:
sign of the dividend, `none` on a zero divisor (Rust panics). -/
def cmod (a b : Int) : Option Int :=
  if b = 0 then none else some (a.tmod b)

/-- Checked `u32` subtraction: `none` models the overflow panic of `a - b`
when `b > a`. -/
def u32sub (a b : Nat) : Option Nat :=
  if b ≤ a then some (a - b) else none

/-- Embedding of `fn div2(x: i32, d: i32) -> i32` from `tile_type.rs`:
truncating division, shifted down by one for negative dividends. -/
def div2 (x d : Int) : Option Int := do
  let q ← cdiv x d
  if 0 ≤ x then pure q else pure (q - 1)

/-- Embedding of `fn mod2(x: i32, m: i32) -> i32` from `tile_type.rs`:
remainder normalized to be nonnegative (for positive `m`). -/
def mod2 (x m : Int) : Option Int := do
  let y ← cmod x m
  if 0 ≤ y then pure y else pure (m + y)

/-- Embedding of `Iterator::min_by_key`: the first element with the minimal
key, `none` on an empty sequence. -/
def minByKey {α : Type} (f : α → Int) (xs : List α) : Option α :=
  xs.foldl
    (fun acc x =>
      match acc with
      | none => some x
      | some c => if f x < f c then some x else some c)
    none

/-- Embedding of `enum RenderOrder` from `tmx.rs`. -/
inductive RenderOrder : Type where
  | RightDown
  | RightUp
  | LeftDown
  | LeftUp
deriving DecidableEq, Repr

/-- Embedding of `enum TileType` from `tile_type.rs`. Pixel sizes are `u32`
in the source and are represented as `Nat`. -/
inductive TileType : Type where
  | Ortho (width height : Nat) (render_order : RenderOrder)
  | Isometric (width height : Nat) (stagger stagger_odd stagger_y : Bool)
      (render_order : RenderOrder)
  | Hexagonal (width height : Nat) (stagger_odd stagger_y : Bool)
      (side_length : Nat) (render_order : RenderOrder)
deriving DecidableEq, Repr

namespace TileType

/-- Embedding of `TileType::coord_to_pos`. The result is the top-left pixel
of the tile at coordinates `(x, y)`. The `Option` accounts for the `u32`
underflow panic of `(dimension + side_length) / 2 - 1` in the hexagonal
branches; all `/ 2` divisions have a constant nonzero divisor and are pure. -/
def coord_to_pos (t : TileType) (layer_height x y : Int) : Option (Int × Int) :=
  match t with
  | .Ortho width height _ => some (x * (width : Int), y * (height : Int))
  | .Isometric width height stagger stagger_odd stagger_y _ =>
    if stagger then
      if stagger_y then
        let rx := if (y.tmod 2 == 1) = stagger_odd
          then x * (width : Int) + (width : Int).tdiv 2
          else x * (width : Int)
        let ry := ((height : Int) * y).tdiv 2
        some (rx, ry)
      else
        let rx := ((width : Int) * x).tdiv 2
        let ry := if (x.tmod 2 == 1) = stagger_odd
          then y * (height : Int) + (height : Int).tdiv 2
          else y * (height : Int)
        some (rx, ry)
    else
      let rx := ((width : Int) * x + (width : Int) * (layer_height - 1 - y)).tdiv 2
      let ry := ((height : Int) * x + (height : Int) * y).tdiv 2
      some (rx, ry)
  | .Hexagonal width height stagger_odd stagger_y side_length _ =>
    if stagger_y then do
      let rx := if (y.tmod 2 == 1) = stagger_odd
        then x * (width : Int) + (width : Int).tdiv 2
        else x * (width : Int)
      let pitch ← u32sub ((height + side_length) / 2) 1
      pure (rx, (pitch : Int) * y)
    else do
      let pitch ← u32sub ((width + side_length) / 2) 1
      let ry := if (x.tmod 2 == 1) = stagger_odd
        then y * (height : Int) + (height : Int).tdiv 2
        else y * (height : Int)
      pure ((pitch : Int) * x, ry)

/-- Embedding of the staggered-isometric branch of `TileType::pos_to_coord`. -/
def isoStagInv (width height : Nat) (stagger_odd stagger_y : Bool)
    (x y : Int) : Option (Int × Int) := do
  let half_w := (width : Int).tdiv 2
  let half_h := (height : Int).tdiv 2
  let (x, y, off_x, off_y) :=
    match stagger_odd, stagger_y with
    | true, _ => (x, y, (0 : Int), (0 : Int))
    | false, false => (x - half_w, y, 1, 0)
    | false, true => (x, y - half_h, 0, 1)
  let ref_x ← div2 x (width : Int)
  let ref_y ← div2 y (height : Int)
  let rel_x := x - ref_x * (width : Int)
  let rel_y := y - ref_y * (height : Int)
  let offset ←
    if rel_y < half_h then do
      let m ← cmod rel_y half_h
      cdiv ((half_h - m) * half_w) half_h
    else do
      let m ← cmod rel_y half_h
      cdiv (m * half_w) half_h
  let top := rel_y < half_h
  let left := rel_x < offset
  let right := rel_x > (width : Int) - offset
  let (rx, ry) :=
    match stagger_y, decide top, decide left, decide right with
    | true, true, true, false => (ref_x - 1, ref_y * 2 - 1)
    | true, true, false, true => (ref_x, ref_y * 2 - 1)
    | true, false, true, false => (ref_x - 1, ref_y * 2 + 1)
    | true, false, false, true => (ref_x, ref_y * 2 + 1)
    | true, _, _, _ => (ref_x, ref_y * 2)
    | false, true, true, false => (ref_x * 2 - 1, ref_y - 1)
    | false, true, false, true => (ref_x * 2 + 1, ref_y - 1)
    | false, false, true, false => (ref_x * 2 - 1, ref_y)
    | false, false, false, true => (ref_x * 2 + 1, ref_y)
    | false, _, _, _ => (ref_x * 2, ref_y)
  pure (rx + off_x, ry + off_y)

/-- Embedding of the hexagonal branch of `TileType::pos_to_coord`:
reference cell plus nearest-center search over three candidates. -/
def hexStagInv (width height : Nat) (stagger_odd stagger_y : Bool)
    (side_length : Nat) (x y : Int) : Option (Int × Int) := do
  let col_w := if stagger_y then (width : Int)
    else ((width : Int) - (side_length : Int)).tdiv 2 + (side_length : Int) - 1
  let row_h := if stagger_y
    then ((height : Int) - (side_length : Int)).tdiv 2 + (side_length : Int) - 1
    else (height : Int)
  let half_w := (width : Int).tdiv 2
  let half_h := (height : Int).tdiv 2
  let ref_x ← div2 x col_w
  let ref_y ← div2 y row_h
  let rel_x := x - ref_x * col_w
  let rel_y := y - ref_y * row_h
  let centers ←
    if stagger_y then do
      let par ← mod2 ref_y 2
      if (par == 1) = stagger_odd then
        pure [(half_w, -row_h + half_h, ref_x, ref_y - 1),
              ((0 : Int), half_h, ref_x - 1, ref_y),
              (col_w, half_h, ref_x, ref_y)]
      else
        pure [(half_w, half_h, ref_x, ref_y),
              ((0 : Int), -row_h + half_h, ref_x - 1, ref_y - 1),
              (col_w, -row_h + half_h, ref_x, ref_y - 1)]
    else do
      let par ← mod2 ref_x 2
      if (par == 1) = stagger_odd then
        pure [(-col_w + half_w, half_h, ref_x - 1, ref_y),
              (half_w, (0 : Int), ref_x, ref_y - 1),
              (half_w, row_h, ref_x, ref_y)]
      else
        pure [(half_w, half_h, ref_x, ref_y),
              (-col_w + half_w, (0 : Int), ref_x - 1, ref_y - 1),
              (-col_w + half_w, row_h, ref_x - 1, ref_y)]
  let best ← minByKey
    (fun c => (c.1 - rel_x) * (c.1 - rel_x) + (c.2.1 - rel_y) * (c.2.1 - rel_y))
    centers
  pure (best.2.2.1, best.2.2.2)

/-- Embedding of `TileType::pos_to_coord`. `none` models a Rust panic
(division or remainder by zero). -/
def pos_to_coord (t : TileType) (layer_height x y : Int) : Option (Int × Int) :=
  match t with
  | .Ortho width height _ => do
    let rx ← cdiv x (width : Int)
    let ry ← cdiv y (height : Int)
    pure (rx, ry)
  | .Isometric width height stagger stagger_odd stagger_y _ =>
    if stagger then
      isoStagInv width height stagger_odd stagger_y x y
    else do
      let origin := ((width : Int) * layer_height).tdiv 2
      let x := x - origin
      let qy ← cdiv y (height : Int)
      let qx ← cdiv x (width : Int)
      pure (qy + qx, qy - qx)
  | .Hexagonal width height stagger_odd stagger_y side_length _ =>
    hexStagInv width height stagger_odd stagger_y side_length x y

end TileType

/-- Embedding of `enum Property` from `property.rs`. The scalar type `S`
stands for the floating-point payload of `Property::Float`; a color is the
four bytes `[a, r, g, b]`. -/
inductive PropertyM (S : Type) : Type where
  | string (value : String)
  | int (value : Int)
  | float (value : S)
  | bool (value : Bool)
  | color (value : Nat × Nat × Nat × Nat)
  | file (value : String)
deriving DecidableEq, Repr

/-- Embedding of `struct Texture` from `texture.rs`, keeping the identifying
label and pixel size; the lazily decoded pixel state is I/O and is not
modelled. -/
structure TextureM : Type where
  label : String
  width : Nat
  height : Nat
deriving DecidableEq, Repr

/-- Embedding of `struct Shape` from `tmx.rs`; points are pairs of `f32`
coordinates represented in the scalar type `S`. -/
structure ShapeM (S : Type) : Type where
  points : List (S × S)
  closed : Bool
deriving DecidableEq, Repr

/-- Embedding of `struct Object` from `tmx.rs`. The `HashMap` of properties
becomes an association list (`List.lookup` models `HashMap::get`). -/
structure ObjectM (S : Type) : Type where
  id : Nat
  properties : List (String × PropertyM S)
  tile : Option Nat
  shape : Option (ShapeM S)
  name : String
  ty : String
  x : S
  y : S
  width : S
  height : S
  rotation : S
  visible : Bool
deriving DecidableEq, Repr

/-- Embedding of `enum Layer` from `layer.rs`. `IVec2` fields become
`Int × Int`, `UVec2` becomes `Nat × Nat`, `Vec2`/`Vec4` of `f32` become
pairs/quadruples over the scalar type `S`. -/
inductive LayerT (S : Type) : Type where
  | TileLayer (size : Nat × Nat) (position : Int × Int) (offset : Int × Int)
      (parallax : S × S) (color : S × S × S × S) (visible : Bool)
      (data : List Nat)
  | ObjectLayer (draworder_index : Bool) (objects : List (ObjectM S))
      (offset : Int × Int) (parallax : S × S) (color : S × S × S × S)
      (visible : Bool)
  | ImageLayer (image : TextureM) (offset : Int × Int) (parallax : S × S)
      (color : S × S × S × S) (visible : Bool)
  | Group (layers : List (LayerT S))

/-- Embedding of `struct Tileset` from `tmx.rs`. The per-tile payload
(`Tile`, whose images, UV rectangles and sizes no modelled operation
inspects) is the type parameter `T`; `tile_size` is a `Vec2` of `f32`
over the scalar type `S`. -/
structure TilesetM (S T : Type) : Type where
  first_gid : Nat
  source : String
  tiles : List (Option T)
  image : Option TextureM
  tile_size : S × S
deriving DecidableEq, Repr

/-- Embedding of `struct Map` from `map.rs`. -/
structure MapM (S T : Type) : Type where
  properties : List (String × PropertyM S)
  tilesets : List (TilesetM S T)
  layers : List (LayerT S)
  width : Nat
  height : Nat
  tile_type : TileType
  background : Nat × Nat × Nat × Nat

/-- Scan of `Map::get_tile`: iterate the tilesets in the given order taking
the first whose `first_gid` bound covers the queried gid; in the source the
order is `self.tilesets.iter().rev()`. -/
def getTileScan {S T : Type} (gid : Nat) : List (TilesetM S T) → Option T
  | [] => none
  | ts :: rest =>
    if ts.first_gid ≤ gid then Option.join ts.tiles[gid - ts.first_gid]?
    else getTileScan gid rest

/-- Embedding of `Map::get_tile` from `map.rs`. -/
def MapM.get_tile {S T : Type} (m : MapM S T) (gid : Nat) : Option T :=
  getTileScan gid m.tilesets.reverse

mutual

/-- Embedding of `Layer::add_offset` from `layer.rs`. -/
def LayerT.add_offset {S : Type} (dx dy : Int) : LayerT S → LayerT S
  | .TileLayer size position offset parallax color visible data =>
    .TileLayer size position (offset.1 + dx, offset.2 + dy) parallax color
      visible data
  | .ObjectLayer re objects offset parallax color visible =>
    .ObjectLayer re objects (offset.1 + dx, offset.2 + dy) parallax color
      visible
  | .ImageLayer image offset parallax color visible =>
    .ImageLayer image (offset.1 + dx, offset.2 + dy) parallax color visible
  | .Group layers => .Group (LayerT.addOffsetList dx dy layers)

/-- Pointwise `Layer::add_offset` over the children of a group. -/
def LayerT.addOffsetList {S : Type} (dx dy : Int) :
    List (LayerT S) → List (LayerT S)
  | [] => []
  | l :: ls => LayerT.add_offset dx dy l :: LayerT.addOffsetList dx dy ls

end

mutual

/-- Embedding of `Layer::mul_parallax` from `layer.rs`. -/
def LayerT.mul_parallax {S : Type} [Mul S] (px py : S) :
    LayerT S → LayerT S
  | .TileLayer size position offset parallax color visible data =>
    .TileLayer size position offset (parallax.1 * px, parallax.2 * py) color
      visible data
  | .ObjectLayer re objects offset parallax color visible =>
    .ObjectLayer re objects offset (parallax.1 * px, parallax.2 * py) color
      visible
  | .ImageLayer image offset parallax color visible =>
    .ImageLayer image offset (parallax.1 * px, parallax.2 * py) color visible
  | .Group layers => .Group (LayerT.mulParallaxList px py layers)

/-- Pointwise `Layer::mul_parallax` over the children of a group. -/
def LayerT.mulParallaxList {S : Type} [Mul S] (px py : S) :
    List (LayerT S) → List (LayerT S)
  | [] => []
  | l :: ls =>
    LayerT.mul_parallax px py l :: LayerT.mulParallaxList px py ls

end

/-- Componentwise product of two `Vec4` values, the `Vec4 * Vec4` operator
used by `Layer::mul_color`. -/
def mulV4 {S : Type} [Mul S] (a b : S × S × S × S) : S × S × S × S :=
  (a.1 * b.1, a.2.1 * b.2.1, a.2.2.1 * b.2.2.1, a.2.2.2 * b.2.2.2)

mutual

/-- Embedding of `Layer::mul_color` from `layer.rs`. -/
def LayerT.mul_color {S : Type} [Mul S] (o : S × S × S × S) :
    LayerT S → LayerT S
  | .TileLayer size position offset parallax color visible data =>
    .TileLayer size position offset parallax (mulV4 color o) visible data
  | .ObjectLayer re objects offset parallax color visible =>
    .ObjectLayer re objects offset parallax (mulV4 color o) visible
  | .ImageLayer image offset parallax color visible =>
    .ImageLayer image offset parallax (mulV4 color o) visible
  | .Group layers => .Group (LayerT.mulColorList o layers)

/-- Pointwise `Layer::mul_color` over the children of a group. -/
def LayerT.mulColorList {S : Type} [Mul S] (o : S × S × S × S) :
    List (LayerT S) → List (LayerT S)
  | [] => []
  | l :: ls => LayerT.mul_color o l :: LayerT.mulColorList o ls

end

/-- The visible data of one non-group layer: the fields that
`Layer::parse_group` propagates into descendants, plus visibility. -/
structure Leaf (S : Type) : Type where
  offset : Int × Int
  parallax : S × S
  color : S × S × S × S
  visible : Bool
deriving DecidableEq, Repr

mutual

/-- All non-group descendant layers of a layer, in document order, with
their offset, parallax, tint color and visibility. -/
def LayerT.leaves {S : Type} : LayerT S → List (Leaf S)
  | .TileLayer _ _ offset parallax color visible _ =>
    [⟨offset, parallax, color, visible⟩]
  | .ObjectLayer _ _ offset parallax color visible =>
    [⟨offset, parallax, color, visible⟩]
  | .ImageLayer _ offset parallax color visible =>
    [⟨offset, parallax, color, visible⟩]
  | .Group layers => LayerT.leavesList layers

/-- All non-group descendant layers of a forest of layers. -/
def LayerT.leavesList {S : Type} : List (LayerT S) → List (Leaf S)
  | [] => []
  | l :: ls => LayerT.leaves l ++ LayerT.leavesList ls

end

/-- Hex digit value used by `parse_color` in `parse.rs`; any other
character maps to 0, exactly as in the source. -/
def nibble (c : Char) : Nat :=
  match c with
  | '0' => 0 | '1' => 1 | '2' => 2 | '3' => 3 | '4' => 4
  | '5' => 5 | '6' => 6 | '7' => 7 | '8' => 8 | '9' => 9
  | 'a' => 10 | 'b' => 11 | 'c' => 12 | 'd' => 13 | 'e' => 14 | 'f' => 15
  | _ => 0

/-- Byte assembled from two hex digits: `nibble(hi) << 4 | nibble(lo)`. -/
def hexByte (hi lo : Char) : Nat :=
  Nat.lor ((nibble hi).shiftLeft 4) (nibble lo)

/-- Embedding of `fn parse_color` from `parse.rs`: strip `#`, lowercase,
then read 6 digits as `rgb` with alpha 255, or 8 digits as `argb`. -/
def parse_color (text : List Char) : Option (Nat × Nat × Nat × Nat) :=
  match (text.filter (fun c => c ≠ '#')).map Char.toLower with
  | [c0, c1, c2, c3, c4, c5] =>
    some (255, hexByte c0 c1, hexByte c2 c3, hexByte c4 c5)
  | [c0, c1, c2, c3, c4, c5, c6, c7] =>
    some (hexByte c0 c1, hexByte c2 c3, hexByte c4 c5, hexByte c6 c7)
  | _ => none

/-- Embedding of `fn parse_color_vec4` from `parse.rs`. The external `f32`
conversion `(byte as f32) * (1.0 / 255.0)` is the parameter `byteToUnit`;
the resulting `Vec4` component order is `(r, g, b, a)`. -/
def parse_color_vec4 {S : Type} (byteToUnit : Nat → S) (text : List Char) :
    Option (S × S × S × S) :=
  (parse_color text).map fun c =>
    (byteToUnit c.2.1, byteToUnit c.2.2.1, byteToUnit c.2.2.2, byteToUnit c.1)

/-- Embedding of Rust `str::parse::<i32>`: optional sign, at least one
ASCII digit, no other characters, and the `i32` range. -/
def parseI32 (cs : List Char) : Option Int :=
  let digits : List Char → Option Nat := fun ds =>
    if ds ≠ [] ∧ ds.all Char.isDigit then
      some (ds.foldl (fun a c => a * 10 + (c.toNat - 48)) 0)
    else none
  match cs with
  | '-' :: rest => do
    let v ← digits rest
    if v ≤ 2 ^ 31 then pure (-(v : Int)) else none
  | '+' :: rest => do
    let v ← digits rest
    if v < 2 ^ 31 then pure (v : Int) else none
  | _ => do
    let v ← digits cs
    if v < 2 ^ 31 then pure (v : Int) else none

/-- Embedding of Rust `str::parse::<u32>`: optional leading `+`, at least
one ASCII digit, no other characters, and the `u32` range. -/
def parseU32 (cs : List Char) : Option Nat :=
  let digits : List Char → Option Nat := fun ds =>
    if ds ≠ [] ∧ ds.all Char.isDigit then
      some (ds.foldl (fun a c => a * 10 + (c.toNat - 48)) 0)
    else none
  match cs with
  | '+' :: rest => do
    let v ← digits rest
    if v < 2 ^ 32 then pure v else none
  | _ => do
    let v ← digits cs
    if v < 2 ^ 32 then pure v else none

/-- The group attributes accumulated by `Layer::parse_group` before its
children are parsed: pixel offset, parallax factor and tint color. -/
structure GroupAttrs (S : Type) : Type where
  offset : Int × Int
  parallax : S × S
  color : S × S × S × S
deriving DecidableEq, Repr

/-- Embedding of the attribute loop of `Layer::parse_group` in `parse.rs`:
`offsetx`/`offsety` parse as `i32`, `parallaxx`/`parallaxy` parse as `f32`,
`opacity` multiplies the color's alpha, `tintcolor` multiplies the whole
color; every other attribute — including `visible`, whose handling is
commented out in the source — is skipped. `parseS` stands for the external
`str::parse::<f32>`. -/
def parse_group_attrs {S : Type} [Mul S] [One S]
    (parseS : List Char → Option S) (byteToUnit : Nat → S)
    (attrs : List (String × String)) : Option (GroupAttrs S) :=
  attrs.foldlM
    (fun st a =>
      match a.1 with
      | "offsetx" => do
        let v ← parseI32 a.2.data
        pure { st with offset := (v, st.offset.2) }
      | "offsety" => do
        let v ← parseI32 a.2.data
        pure { st with offset := (st.offset.1, v) }
      | "parallaxx" => do
        let v ← parseS a.2.data
        pure { st with parallax := (v, st.parallax.2) }
      | "parallaxy" => do
        let v ← parseS a.2.data
        pure { st with parallax := (st.parallax.1, v) }
      | "opacity" => do
        let v ← parseS a.2.data
        pure { st with color :=
          (st.color.1, st.color.2.1, st.color.2.2.1, st.color.2.2.2 * v) }
      | "tintcolor" => do
        let c ← parse_color_vec4 byteToUnit a.2.data
        pure { st with color := mulV4 st.color c }
      | _ => pure st)
    ⟨(0, 0), (1, 1), (1, 1, 1, 1)⟩

/-- The final loop of `Layer::parse_group`: push the group's own offset,
parallax and tint into every parsed child layer. -/
def apply_group_attrs {S : Type} [Mul S] (ga : GroupAttrs S)
    (ls : List (LayerT S)) : List (LayerT S) :=
  ls.map fun l =>
    LayerT.mul_color ga.color
      (LayerT.mul_parallax ga.parallax.1 ga.parallax.2
        (LayerT.add_offset ga.offset.1 ga.offset.2 l))

/-- Embedding of `Layer::parse_group` from `parse.rs`, applied to its
already-parsed children `ls`: read the group attributes, propagate them
into each child, and wrap the children in a `Group` node. -/
def parse_group_model {S : Type} [Mul S] [One S]
    (parseS : List Char → Option S) (byteToUnit : Nat → S)
    (attrs : List (String × String)) (ls : List (LayerT S)) :
    Option (LayerT S) := do
  let ga ← parse_group_attrs parseS byteToUnit attrs
  pure (LayerT.Group (apply_group_attrs ga ls))

/-- Unicode white-space, the predicate behind Rust `str::trim` and
`char::is_whitespace`. -/
def isRustWhitespace (c : Char) : Bool :=
  c = ' ' ∨ c = '\t' ∨ c = '\n' ∨ c = '\x0b' ∨ c = '\x0c' ∨ c = '\r' ∨
  c = '\u0085' ∨ c = ' ' ∨ c = ' ' ∨
  (0x2000 ≤ c.toNat ∧ c.toNat ≤ 0x200a) ∨
  c = ' ' ∨ c = ' ' ∨ c = ' ' ∨ c = ' ' ∨ c = '　'

/-- Embedding of Rust `str::trim`. -/
def rustTrim (cs : List Char) : List Char :=
  ((cs.dropWhile isRustWhitespace).reverse.dropWhile isRustWhitespace).reverse

/-- Embedding of Rust `str::split(sep)` on a single separator character:
keeps empty segments, and the empty input yields one empty segment. -/
def splitChar (sep : Char) : List Char → List (List Char)
  | [] => [[]]
  | c :: cs =>
    match splitChar sep cs with
    | [] => if c = sep then [[], []] else [[c]]
    | t :: ts => if c = sep then [] :: t :: ts else (c :: t) :: ts

/-- Embedding of `enum Data` from `parse.rs`. -/
inductive DataM : Type where
  | U8 (bytes : List Nat)
  | U32 (gids : List Nat)
deriving DecidableEq, Repr

/-- The four decoder flags accumulated by `parse_data` from the `encoding`
and `compression` attributes. -/
structure DataFlags : Type where
  decode_csv : Bool
  decode_base64 : Bool
  decompress_z : Bool
  decompress_g : Bool
deriving DecidableEq, Repr

/-- Embedding of the attribute loop of `fn parse_data` in `parse.rs`.
Note that the source matches the compression value against the string
`"glib"`, not `"gzip"`, when setting `decompress_g`. -/
def parse_data_flags (attrs : List (String × String)) : DataFlags :=
  attrs.foldl
    (fun f a =>
      match a.1 with
      | "encoding" =>
        match a.2 with
        | "csv" => { f with decode_csv := true }
        | "base64" => { f with decode_base64 := true }
        | _ => f
      | "compression" =>
        match a.2 with
        | "zlib" => { f with decompress_z := true }
        | "glib" => { f with decompress_g := true }
        | _ => f
      | _ => f)
    ⟨false, false, false, false⟩

/-- The CSV arm of `fn parse_data`: split on commas, drop tokens that are
blank after trimming, strip carriage returns, parse each token as `u32`
with a default of 0 for unparsable tokens. -/
def csvDecode (s : List Char) : List Nat :=
  ((splitChar ',' s).filter fun v => rustTrim v ≠ []).map fun v =>
    (parseU32 (v.filter fun c => c ≠ '\r')).getD 0

/-- Embedding of the `Characters` arm of `fn parse_data`, with the calls
into external crates as parameters: `b64` is `base64::decode` on the
trimmed text, `inflate_zlib` and `inflate_gzip` are the `libflate`
decoders reading to end. -/
def decode_data (b64 : List Char → Option (List Nat))
    (inflate_zlib inflate_gzip : List Nat → Option (List Nat))
    (f : DataFlags) (s : List Char) : Option DataM :=
  if f.decode_csv then some (.U32 (csvDecode s))
  else if f.decode_base64 then do
    let bytes ← b64 (rustTrim s)
    let bytes ←
      if f.decompress_z then inflate_zlib bytes
      else if f.decompress_g then inflate_gzip bytes
      else pure bytes
    pure (.U8 bytes)
  else none

/-- Embedding of `chunks_exact(4)`: the trailing partial chunk is
discarded. -/
def chunksExact4 : List Nat → List (Nat × Nat × Nat × Nat)
  | a :: b :: c :: d :: rest => (a, b, c, d) :: chunksExact4 rest
  | _ => []

/-- Embedding of `Data::into_vec_u32` from `parse.rs`: interpret a byte
buffer as little-endian `u32` values,
`c0 | c1 << 8 | c2 << 16 | c3 << 24`. -/
def DataM.into_vec_u32 : DataM → List Nat
  | .U8 v =>
    (chunksExact4 v).map fun c =>
      Nat.lor (Nat.lor (Nat.lor c.1 (c.2.1.shiftLeft 8))
        (c.2.2.1.shiftLeft 16)) (c.2.2.2.shiftLeft 24)
  | .U32 v => v

/-- The map attributes accumulated by `Map::parse` before it constructs
the `TileType`. -/
structure MapHeader : Type where
  width : Nat
  height : Nat
  tile_width : Nat
  tile_height : Nat
  render_order : RenderOrder
  tile_type : Nat
  stagger_y : Bool
  stagger_i : Bool
  hex_side_length : Nat
  background : Nat × Nat × Nat × Nat
deriving DecidableEq, Repr

/-- Embedding of the attribute loop of `Map::parse` in `parse.rs`:
numeric attributes parse as `u32`, the four closed enumerations fail the
parse on unknown values, and `backgroundcolor` sets the background to
`[1; 4]` as in the source. -/
def parse_map_header (attrs : List (String × String)) : Option MapHeader :=
  attrs.foldlM
    (fun h a =>
      match a.1 with
      | "width" => do pure { h with width := ← parseU32 a.2.data }
      | "height" => do pure { h with height := ← parseU32 a.2.data }
      | "tilewidth" => do pure { h with tile_width := ← parseU32 a.2.data }
      | "tileheight" => do pure { h with tile_height := ← parseU32 a.2.data }
      | "renderorder" =>
        match a.2 with
        | "right-down" => pure { h with render_order := .RightDown }
        | "right-up" => pure { h with render_order := .RightUp }
        | "left-down" => pure { h with render_order := .LeftDown }
        | "left-up" => pure { h with render_order := .LeftUp }
        | _ => none
      | "orientation" =>
        match a.2 with
        | "orthogonal" => pure { h with tile_type := 0 }
        | "isometric" => pure { h with tile_type := 1 }
        | "staggered" => pure { h with tile_type := 2 }
        | "hexagonal" => pure { h with tile_type := 3 }
        | _ => none
      | "backgroundcolor" => pure { h with background := (1, 1, 1, 1) }
      | "staggeraxis" =>
        match a.2 with
        | "x" => pure { h with stagger_y := false }
        | "y" => pure { h with stagger_y := true }
        | _ => none
      | "staggerindex" =>
        match a.2 with
        | "odd" => pure { h with stagger_i := true }
        | "even" => pure { h with stagger_i := false }
        | _ => none
      | "hexsidelength" => do
        pure { h with hex_side_length := ← parseU32 a.2.data }
      | _ => pure h)
    ⟨0, 0, 0, 0, .RightDown, 0, false, true, 0, (0, 0, 0, 0)⟩

/-- Embedding of the `result.tile_type = match tile_type` block of
`Map::parse`: construct the `TileType` variant from the accumulated
header. The source passes `tile_width` for both dimensions of
`TileType::Hexagonal`. -/
def MapHeader.make_tile_type (h : MapHeader) : Option TileType :=
  match h.tile_type with
  | 0 => some (.Ortho h.tile_width h.tile_height h.render_order)
  | 1 => some (.Isometric h.tile_width h.tile_height false h.stagger_i
      h.stagger_y h.render_order)
  | 2 => some (.Isometric h.tile_width h.tile_height true h.stagger_i
      h.stagger_y h.render_order)
  | 3 => some (.Hexagonal h.tile_width h.tile_width h.stagger_i h.stagger_y
      h.hex_side_length h.render_order)
  | _ => none

/-- The `TileType` a `<map>` element's attributes produce. -/
def map_tile_type (attrs : List (String × String)) : Option TileType := do
  let h ← parse_map_header attrs
  h.make_tile_type

/-- Embedding of the column-packing loop of `Tileset::parse_tsx`: starting
from `width - margin * 2`, subtract `tile_width + spacing` and then
`spacing` once more per column while at least `tile_width` of space
remains. The conjunct `0 < tile_width + 2 * spacing` only totalizes the
function: without it the source loop does not terminate, and it holds for
every input the parser produces (positive tile width, nonnegative
spacing). -/
def columnsLoop (space tile_width spacing : Int) : Nat :=
  if h : tile_width ≤ space ∧ 0 < tile_width + 2 * spacing then
    columnsLoop (space - (tile_width + spacing) - spacing) tile_width spacing
      + 1
  else 0
termination_by (space - tile_width + 1).toNat
decreasing_by omega

/-- Column count computed by `Tileset::parse_tsx` when the `columns`
attribute is absent. -/
def columns_of (width margin tile_width spacing : Int) : Nat :=
  columnsLoop (width - margin * 2) tile_width spacing

/-- Embedding of the row-packing loop of `Tileset::parse_tsx`: starting
from `height - margin * 2`, subtract `tile_height + spacing` once per row
while at least `tile_height` of space remains. The conjunct
`0 < tile_height + spacing` only totalizes the function, as in
`columnsLoop`. -/
def rowsLoop (space tile_height spacing : Int) : Nat :=
  if h : tile_height ≤ space ∧ 0 < tile_height + spacing then
    rowsLoop (space - (tile_height + spacing)) tile_height spacing + 1
  else 0
termination_by (space - tile_height + 1).toNat
decreasing_by omega

/-- Row count computed by `Tileset::parse_tsx`. -/
def rows_of (height margin tile_height spacing : Int) : Nat :=
  rowsLoop (height - margin * 2) tile_height spacing

/-- Embedding of the per-object body of `Layer::process` in `parse.rs`:
an object whose `__include_tileset__` marker property names a tileset
source has its tile id rebased by the `first_gid` of every tileset of the
map with that source; if none matches, the source hits `todo!` — a panic,
modelled as `none`. -/
def processObject {S T : Type} (tilesets : List (TilesetM S T))
    (o : ObjectM S) : Option (ObjectM S) :=
  match o.properties.lookup "__include_tileset__" with
  | some (.file tileset_source) =>
    let st := tilesets.foldl
      (fun acc ts =>
        if ts.source = tileset_source then
          (acc.1.map fun t => ts.first_gid + t, true)
        else acc)
      (o.tile, false)
    if st.2 then some { o with tile := st.1 } else none
  | _ => some o

/-- Embedding of `Layer::process` from `parse.rs`: resolve every object
of an object layer against the map's tilesets, then append the layer to
the map. Any other layer kind hits `unreachable!`, modelled as `none`. -/
def LayerT.process {S T : Type} (l : LayerT S) (m : MapM S T) :
    Option (MapM S T) :=
  match l with
  | .ObjectLayer re objects offset parallax color visible => do
    let objects ← objects.mapM (processObject m.tilesets)
    pure { m with layers :=
      m.layers ++ [.ObjectLayer re objects offset parallax color visible] }
  | _ => none

/-- C5 counterexample: the claim states that CSV-decoding the text
"1,2,3,4\r\n" yields [1,2,3,4]; in the code the trailing token keeps its
newline after carriage returns are stripped, fails to parse, and defaults
to 0, so the decode yields [1,2,3,0]. -/
theorem csv_crlf_counterexample :
    csvDecode ("1,2,3,4\r\n".data) ≠ [1, 2, 3, 4] := by decide

/-- C5 (amended): parse_data with encoding "csv" splits on commas, skips
blank-after-trim tokens, strips carriage returns and parses each token as
u32 with unparsable tokens becoming 0; decoding "1,2,3,4\r\n" yields
[1,2,3,0] (the surviving newline makes the last token unparsable),
"1,,3" yields [1,3], and "x,2" yields [0,2]. -/
theorem csv_decode_amended :
    (∀ (b64 : List Char → Option (List Nat))
        (iz ig : List Nat → Option (List Nat)) (s : List Char),
      decode_data b64 iz ig (parse_data_flags [("encoding", "csv")]) s =
        some (.U32 (csvDecode s))) ∧
    csvDecode ("1,2,3,4\r\n".data) = [1, 2, 3, 0] ∧
    csvDecode ("1,,3".data) = [1, 3] ∧
    csvDecode ("x,2".data) = [0, 2] := by
  refine ⟨fun b64 iz ig s => ?_, by decide, by decide, by decide⟩
  rfl

/-- C7: a map element with orientation "hexagonal" (here with
tilewidth 14 and tileheight 12) produces a Hexagonal tile type whose
height field is the tilewidth attribute, 14, not the tileheight
attribute 12 that the claim requires: the source constructs
TileType::Hexagonal with height: tile_width. -/
theorem hexagonal_height_uses_tile_width :
    map_tile_type
      [("orientation", "hexagonal"), ("tilewidth", "14"),
       ("tileheight", "12"), ("hexsidelength", "6"), ("staggeraxis", "y"),
       ("staggerindex", "even"), ("renderorder", "right-up")] =
      some (.Hexagonal 14 14 false true 6 .RightUp) := by decide

/-- C4: with compression attribute "gzip" the decoder flags of parse_data
never enable gzip inflation — the source matches the string "glib" — so
the base64-decoded bytes are passed through raw no matter what the gzip
inflater would return, contradicting the claim that they are fully
gzip-inflated. -/
theorem gzip_bytes_not_inflated :
    (parse_data_flags
      [("encoding", "base64"), ("compression", "gzip")]).decompress_g =
        false ∧
    ∀ (b64 : List Char → Option (List Nat))
      (iz ig : List Nat → Option (List Nat)) (s : List Char)
      (bytes : List Nat),
      b64 (rustTrim s) = some bytes →
      decode_data b64 iz ig
        (parse_data_flags [("encoding", "base64"), ("compression", "gzip")])
        s = some (.U8 bytes) := by
  refine ⟨rfl, fun b64 iz ig s bytes h => ?_⟩
  simp [decode_data, parse_data_flags, h]

/-- C4 witness: a concrete base64 decoder returning four bytes; the data
pipeline with compression "gzip" emits them raw even though the gzip
inflater (here one that would return [9]) is available. -/
theorem gzip_bytes_not_inflated_witness :
    decode_data (fun _ => some [1, 0, 0, 0]) (fun _ => some [8])
      (fun _ => some [9])
      (parse_data_flags [("encoding", "base64"), ("compression", "gzip")])
      ("AQAAAA==".data) = some (.U8 [1, 0, 0, 0]) :=
  gzip_bytes_not_inflated.2 (fun _ => some [1, 0, 0, 0]) (fun _ => some [8])
    (fun _ => some [9]) ("AQAAAA==".data) [1, 0, 0, 0] rfl

/-- Greatest-n characterization of the column-packing loop: for a positive
tile width and nonnegative spacing, the loop counts the largest n with
(n - 1) * (tile_width + 2 * spacing) + tile_width ≤ space. -/
theorem columnsLoop_spec (space tw s : Int) (htw : 0 < tw) (hs : 0 ≤ s) :
    ∀ n : ℕ, 0 < n →
      (((n : Int) - 1) * (tw + 2 * s) + tw ≤ space ↔
        n ≤ columnsLoop space tw s) := by
  intro n hn
  rw [columnsLoop.eq_def]
  by_cases hcond : tw ≤ space
  · have hrec := columnsLoop_spec (space - (tw + s) - s) tw s htw hs
    rw [dif_pos (by constructor <;> omega)]
    rcases Nat.lt_or_ge n 2 with h2 | h2
    · have hn1 : n = 1 := by omega
      subst hn1
      simp only [Nat.cast_one]
      constructor
      · intro _; omega
      · intro _; linarith
    · have hstep := hrec (n - 1) (by omega)
      have hcast : ((n - 1 : ℕ) : Int) = (n : Int) - 1 := by
        omega
      rw [hcast] at hstep
      constructor
      · intro hle
        have : ((n : Int) - 1 - 1) * (tw + 2 * s) + tw ≤
            space - (tw + s) - s := by ring_nf; ring_nf at hle; linarith
        have := hstep.mp this
        omega
      · intro hle
        have : n - 1 ≤ columnsLoop (space - (tw + s) - s) tw s := by omega
        have := hstep.mpr this
        have hexp : ((n : Int) - 1) * (tw + 2 * s) + tw =
            (((n : Int) - 1 - 1) * (tw + 2 * s) + tw) + (tw + 2 * s) := by
          ring
        linarith
  · rw [dif_neg (by intro hc; exact hcond hc.1)]
    constructor
    · intro hle
      exfalso
      have hnn : 0 ≤ ((n : Int) - 1) * (tw + 2 * s) := by
        apply mul_nonneg
        · have : (1 : Int) ≤ (n : Int) := by exact_mod_cast hn
          linarith
        · linarith
      linarith
    · intro hle; omega
termination_by (space - tw + 1).toNat
decreasing_by omega

/-- Greatest-n characterization of the row-packing loop: the loop counts
the largest n with (n - 1) * (tile_height + spacing) + tile_height ≤
space. -/
theorem rowsLoop_spec (space th s : Int) (hth : 0 < th) (hs : 0 ≤ s) :
    ∀ n : ℕ, 0 < n →
      (((n : Int) - 1) * (th + s) + th ≤ space ↔
        n ≤ rowsLoop space th s) := by
  intro n hn
  rw [rowsLoop.eq_def]
  by_cases hcond : th ≤ space
  · have hrec := rowsLoop_spec (space - (th + s)) th s hth hs
    rw [dif_pos (by constructor <;> omega)]
    rcases Nat.lt_or_ge n 2 with h2 | h2
    · have hn1 : n = 1 := by omega
      subst hn1
      simp only [Nat.cast_one]
      constructor
      · intro _; omega
      · intro _; linarith
    · have hstep := hrec (n - 1) (by omega)
      have hcast : ((n - 1 : ℕ) : Int) = (n : Int) - 1 := by omega
      rw [hcast] at hstep
      constructor
      · intro hle
        have : ((n : Int) - 1 - 1) * (th + s) + th ≤ space - (th + s) := by
          ring_nf; ring_nf at hle; linarith
        have := hstep.mp this
        omega
      · intro hle
        have : n - 1 ≤ rowsLoop (space - (th + s)) th s := by omega
        have := hstep.mpr this
        have hexp : ((n : Int) - 1) * (th + s) + th =
            (((n : Int) - 1 - 1) * (th + s) + th) + (th + s) := by ring
        linarith
  · rw [dif_neg (by intro hc; exact hcond hc.1)]
    constructor
    · intro hle
      exfalso
      have hnn : 0 ≤ ((n : Int) - 1) * (th + s) := by
        apply mul_nonneg
        · have : (1 : Int) ≤ (n : Int) := by exact_mod_cast hn
          linarith
        · linarith
      linarith
    · intro hle; omega
termination_by (space - th + 1).toNat
decreasing_by omega

/-- C8 counterexample: with image width 9, no margin, spacing 1 and tile
width 4, the claim's packing inequality margin + n * tile_width +
(n - 1) * spacing ≤ image_width admits n = 2, but the code generates only
1 column: its loop subtracts spacing twice per column. -/
theorem columns_packing_counterexample :
    columns_of 9 0 4 1 = 1 ∧
    (0 + 2 * 4 + (2 - 1) * 1 : Int) ≤ 9 := by
  constructor
  · show columnsLoop 9 4 1 = 1
    rw [columnsLoop.eq_def]; norm_num
    rw [columnsLoop.eq_def]; norm_num
  · norm_num

/-- C8 (amended): when the columns attribute is absent, the number of
generated columns is the largest n satisfying margin * 2 + n * tile_width
+ (n - 1) * (2 * spacing) ≤ image_width (the loop subtracts both margins
up front and spacing twice per column); the number of rows is the largest
n satisfying margin * 2 + n * tile_height + (n - 1) * spacing ≤
image_height, i.e. tile_height + spacing is repeatedly subtracted from
image_height - 2 * margin while at least tile_height of space remains. -/
theorem atlas_packing_amended (width height margin tw th s : Int)
    (htw : 0 < tw) (hth : 0 < th) (hs : 0 ≤ s) :
    (∀ n : ℕ, 0 < n →
      (margin * 2 + (n : Int) * tw + ((n : Int) - 1) * (2 * s) ≤ width ↔
        n ≤ columns_of width margin tw s)) ∧
    (∀ n : ℕ, 0 < n →
      (margin * 2 + (n : Int) * th + ((n : Int) - 1) * s ≤ height ↔
        n ≤ rows_of height margin th s)) := by
  constructor
  · intro n hn
    have h := columnsLoop_spec (width - margin * 2) tw s htw hs n hn
    unfold columns_of
    rw [← h]
    constructor <;> intro hle <;> nlinarith
  · intro n hn
    have h := rowsLoop_spec (height - margin * 2) th s hth hs n hn
    unfold rows_of
    rw [← h]
    constructor <;> intro hle <;> nlinarith

/-- C8 witness: at width 9, margin 0, tile 4x4, spacing 1 the amended
packing bound admits exactly one column (2 * 4 + 2 > 9) and the loop
agrees, and two rows fit. -/
theorem atlas_packing_amended_witness :
    (0 * 2 + (1 : Int) * 4 + ((1 : Int) - 1) * (2 * 1) ≤ 9 ↔
      1 ≤ columns_of 9 0 4 1) ∧
    (0 * 2 + (2 : Int) * 4 + ((2 : Int) - 1) * 1 ≤ 9 ↔
      2 ≤ rows_of 9 0 4 1) :=
  ⟨(atlas_packing_amended 9 9 0 4 4 1 (by norm_num) (by norm_num)
      (by norm_num)).1 1 (by norm_num),
   (atlas_packing_amended 9 9 0 4 4 1 (by norm_num) (by norm_num)
      (by norm_num)).2 2 (by norm_num)⟩

/-- Tilesets whose lower gid bound lies above the query are skipped by the
reverse scan of Map::get_tile. -/
theorem getTileScan_skip {S T : Type} (gid : Nat)
    (l r : List (TilesetM S T)) (h : ∀ u ∈ l, gid < u.first_gid) :
    getTileScan gid (l ++ r) = getTileScan gid r := by
  induction l with
  | nil => rfl
  | cons u l ih =>
    have hu : gid < u.first_gid := h u (by simp)
    have hne : ¬ u.first_gid ≤ gid := by omega
    simp only [List.cons_append, getTileScan, hne, if_false]
    exact ih fun v hv => h v (List.mem_cons_of_mem u hv)

/-- C2: in a map whose tilesets are in ascending first_gid order, a gid
at or above a tileset's first_gid and below the next tileset's first_gid
(unbounded for the last tileset) resolves inside that tileset alone:
get_tile returns exactly the content of slot gid - first_gid — the tile
when the slot holds one, none on a gap or out-of-range index — and never
a tile of another tileset. -/
theorem get_tile_in_range {S T : Type} (m : MapM S T)
    (pre post : List (TilesetM S T)) (ts : TilesetM S T) (gid : Nat)
    (hdecomp : m.tilesets = pre ++ ts :: post)
    (hsorted : m.tilesets.Pairwise fun a b => a.first_gid ≤ b.first_gid)
    (hlo : ts.first_gid ≤ gid)
    (hhi : ∀ nxt, post.head? = some nxt → gid < nxt.first_gid) :
    m.get_tile gid = Option.join ts.tiles[gid - ts.first_gid]? := by
  unfold MapM.get_tile
  rw [hdecomp] at hsorted ⊢
  have hpost : ∀ u ∈ post, gid < u.first_gid := by
    rcases List.pairwise_append.mp hsorted with ⟨-, hts, -⟩
    rcases List.pairwise_cons.mp hts with ⟨-, hp⟩
    cases post with
    | nil => intro u hu; cases hu
    | cons nxt rest =>
      intro u hu
      have hn : gid < nxt.first_gid := hhi nxt rfl
      rcases List.mem_cons.mp hu with rfl | hu2
      · exact hn
      · rcases List.pairwise_cons.mp hp with ⟨hnr, -⟩
        exact lt_of_lt_of_le hn (hnr u hu2)
  have hrev : (pre ++ ts :: post).reverse =
      post.reverse ++ (ts :: pre.reverse) := by
    simp
  rw [hrev, getTileScan_skip gid post.reverse (ts :: pre.reverse)
    (fun u hu => hpost u (List.mem_reverse.mp hu))]
  simp only [getTileScan, if_pos hlo]

/-- First tileset of the concrete witness map: gids 1-3, with a gap at
slot 1. -/
def tsWitA : TilesetM Int Nat :=
  { first_gid := 1, source := "a.tsx", tiles := [some 10, none, some 12],
    image := none, tile_size := (0, 0) }

/-- Second tileset of the concrete witness map: gids from 5. -/
def tsWitB : TilesetM Int Nat :=
  { first_gid := 5, source := "b.tsx", tiles := [some 50], image := none,
    tile_size := (0, 0) }

/-- Concrete two-tileset map used to witness the gid-resolution
theorem. -/
def mapWit : MapM Int Nat :=
  { properties := []
    tilesets := [tsWitA, tsWitB]
    layers := []
    width := 0
    height := 0
    tile_type := .Ortho 1 1 .RightDown
    background := (0, 0, 0, 0) }

/-- C2 witness: in the concrete map, gid 2 falls in the first tileset's
range and resolves to its gap slot (none), and gid 5 resolves to slot 0
of the second tileset; neither lookup leaves its tileset. -/
theorem get_tile_in_range_witness :
    (mapWit.get_tile 2 = Option.join tsWitA.tiles[2 - 1]?) ∧
    (mapWit.get_tile 5 = Option.join tsWitB.tiles[5 - 5]?) :=
  ⟨get_tile_in_range mapWit [] [tsWitB] tsWitA 2 rfl (by decide)
      (by decide) (fun nxt h => by cases h; decide),
   get_tile_in_range mapWit [tsWitA] [] tsWitB 5 rfl (by decide)
      (by decide) (fun nxt h => by cases h)⟩

/-- The rebase fold of Layer::process leaves its accumulator unchanged on
a run of tilesets whose source does not match. -/
theorem rebase_fold_no_match {S T : Type} (src : String)
    (l : List (TilesetM S T)) (h : ∀ u ∈ l, u.source ≠ src)
    (acc : Option Nat × Bool) :
    l.foldl
      (fun acc ts =>
        if ts.source = src then (acc.1.map fun t => ts.first_gid + t, true)
        else acc)
      acc = acc := by
  induction l generalizing acc with
  | nil => rfl
  | cons u l ih =>
    have hu : ¬ u.source = src := h u (by simp)
    simp only [List.foldl_cons, if_neg hu]
    exact ih (fun v hv => h v (List.mem_cons_of_mem u hv)) acc

/-- A monadic map over Option fails as soon as any element fails. -/
theorem mapM_eq_none_of_mem {α β : Type} (f : α → Option β) (l : List α)
    (x : α) (hx : x ∈ l) (hf : f x = none) : l.mapM f = none := by
  induction l with
  | nil => cases hx
  | cons a l ih =>
    rw [List.mapM_cons]
    rcases List.mem_cons.mp hx with rfl | hx2
    · rw [hf]; rfl
    · cases ha : f a with
      | none => rfl
      | some v =>
        show (l.mapM f >>= fun bs => pure (v :: bs)) = none
        rw [ih hx2]; rfl

/-- C6: an object whose internal __include_tileset__ marker names the
source of exactly one already-parsed tileset of the map gets its tile id
rebased by that tileset's first_gid; and when no tileset of the map
matches the marker, processing the object layer fails (the source hits
todo!) and no map is produced. -/
theorem template_tileset_resolution :
    (∀ {S T : Type} (pre post : List (TilesetM S T)) (ts : TilesetM S T)
        (o : ObjectM S) (src : String) (t : Nat),
      o.properties.lookup "__include_tileset__" =
        some (PropertyM.file src) →
      o.tile = some t →
      ts.source = src →
      (∀ u ∈ pre, u.source ≠ src) →
      (∀ u ∈ post, u.source ≠ src) →
      processObject (pre ++ ts :: post) o =
        some { o with tile := some (ts.first_gid + t) }) ∧
    (∀ {S T : Type} (m : MapM S T) (o : ObjectM S) (src : String)
        (dro : Bool) (objs_pre objs_post : List (ObjectM S))
        (off : Int × Int) (par : S × S) (col : S × S × S × S) (vis : Bool),
      o.properties.lookup "__include_tileset__" =
        some (PropertyM.file src) →
      (∀ u ∈ m.tilesets, u.source ≠ src) →
      LayerT.process
        (.ObjectLayer dro (objs_pre ++ o :: objs_post) off par col vis) m =
        none) := by
  constructor
  · intro S T pre post ts o src t hlook htile hts hpre hpost
    simp only [processObject, hlook]
    rw [List.foldl_append, rebase_fold_no_match src pre hpre,
      List.foldl_cons, if_pos hts,
      rebase_fold_no_match src post hpost, htile]
    rfl
  · intro S T m o src dro objs_pre objs_post off par col vis hlook hnone
    have hobj : processObject m.tilesets o = none := by
      simp only [processObject, hlook]
      rw [rebase_fold_no_match src m.tilesets hnone]
      rfl
    simp only [LayerT.process]
    rw [mapM_eq_none_of_mem (processObject m.tilesets)
      (objs_pre ++ o :: objs_post) o (by simp) hobj]
    rfl

/-- Concrete object carrying the template marker for the witness: its
tile id is the template-local id 3 and its marker names the second
witness tileset. -/
def objWit : ObjectM Int :=
  { id := 1, properties := [("__include_tileset__", .file "b.tsx")],
    tile := some 3, shape := none, name := "", ty := "", x := 0, y := 0,
    width := 0, height := 0, rotation := 0, visible := true }

/-- C6 witness: in the concrete map the marked object's tile 3 is rebased
to 5 + 3 by the tileset with source "b.tsx", and an object whose marker
names an unknown source makes the whole layer-processing step return
none. -/
theorem template_tileset_resolution_witness :
    (processObject mapWit.tilesets objWit =
      some { objWit with tile := some (5 + 3) }) ∧
    (LayerT.process
      (.ObjectLayer false
        [{ objWit with properties :=
            [("__include_tileset__", .file "zzz.tsx")] }]
        (0, 0) (1, 1) (1, 1, 1, 1) true) mapWit = none) :=
  ⟨template_tileset_resolution.1 [tsWitA] [] tsWitB objWit "b.tsx" 3
      (by decide) (by decide) (by decide)
      (by intro u hu; rcases List.mem_singleton.mp hu with rfl; decide)
      (by intro u hu; cases hu),
   template_tileset_resolution.2 mapWit
      { objWit with properties :=
          [("__include_tileset__", .file "zzz.tsx")] }
      "zzz.tsx" false [] [] (0, 0) (1, 1) (1, 1, 1, 1) true (by decide)
      (by decide)⟩

mutual

/-- Layer::add_offset shifts the offset of every descendant leaf and
changes nothing else. -/
theorem leaves_add_offset {S : Type} (dx dy : Int) (l : LayerT S) :
    (LayerT.add_offset dx dy l).leaves =
      l.leaves.map fun f =>
        ⟨(f.offset.1 + dx, f.offset.2 + dy), f.parallax, f.color,
          f.visible⟩ := by
  cases l with
  | TileLayer size position offset parallax color visible data =>
    simp [LayerT.add_offset, LayerT.leaves]
  | ObjectLayer re objects offset parallax color visible =>
    simp [LayerT.add_offset, LayerT.leaves]
  | ImageLayer image offset parallax color visible =>
    simp [LayerT.add_offset, LayerT.leaves]
  | Group layers =>
    simp only [LayerT.add_offset, LayerT.leaves]
    exact leavesList_add_offset dx dy layers

/-- List version of leaves_add_offset. -/
theorem leavesList_add_offset {S : Type} (dx dy : Int)
    (ls : List (LayerT S)) :
    LayerT.leavesList (LayerT.addOffsetList dx dy ls) =
      (LayerT.leavesList ls).map fun f =>
        ⟨(f.offset.1 + dx, f.offset.2 + dy), f.parallax, f.color,
          f.visible⟩ := by
  cases ls with
  | nil => rfl
  | cons l ls =>
    simp only [LayerT.addOffsetList, LayerT.leavesList, List.map_append]
    rw [leaves_add_offset dx dy l, leavesList_add_offset dx dy ls]

end

mutual

/-- Layer::mul_parallax multiplies the parallax of every descendant leaf
and changes nothing else. -/
theorem leaves_mul_parallax {S : Type} [Mul S] (px py : S) (l : LayerT S) :
    (LayerT.mul_parallax px py l).leaves =
      l.leaves.map fun f =>
        ⟨f.offset, (f.parallax.1 * px, f.parallax.2 * py), f.color,
          f.visible⟩ := by
  cases l with
  | TileLayer size position offset parallax color visible data =>
    simp [LayerT.mul_parallax, LayerT.leaves]
  | ObjectLayer re objects offset parallax color visible =>
    simp [LayerT.mul_parallax, LayerT.leaves]
  | ImageLayer image offset parallax color visible =>
    simp [LayerT.mul_parallax, LayerT.leaves]
  | Group layers =>
    simp only [LayerT.mul_parallax, LayerT.leaves]
    exact leavesList_mul_parallax px py layers

/-- List version of leaves_mul_parallax. -/
theorem leavesList_mul_parallax {S : Type} [Mul S] (px py : S)
    (ls : List (LayerT S)) :
    LayerT.leavesList (LayerT.mulParallaxList px py ls) =
      (LayerT.leavesList ls).map fun f =>
        ⟨f.offset, (f.parallax.1 * px, f.parallax.2 * py), f.color,
          f.visible⟩ := by
  cases ls with
  | nil => rfl
  | cons l ls =>
    simp only [LayerT.mulParallaxList, LayerT.leavesList, List.map_append]
    rw [leaves_mul_parallax px py l, leavesList_mul_parallax px py ls]

end

mutual

/-- Layer::mul_color multiplies the tint color of every descendant leaf
and changes nothing else. -/
theorem leaves_mul_color {S : Type} [Mul S] (o : S × S × S × S)
    (l : LayerT S) :
    (LayerT.mul_color o l).leaves =
      l.leaves.map fun f =>
        ⟨f.offset, f.parallax, mulV4 f.color o, f.visible⟩ := by
  cases l with
  | TileLayer size position offset parallax color visible data =>
    simp [LayerT.mul_color, LayerT.leaves]
  | ObjectLayer re objects offset parallax color visible =>
    simp [LayerT.mul_color, LayerT.leaves]
  | ImageLayer image offset parallax color visible =>
    simp [LayerT.mul_color, LayerT.leaves]
  | Group layers =>
    simp only [LayerT.mul_color, LayerT.leaves]
    exact leavesList_mul_color o layers

/-- List version of leaves_mul_color. -/
theorem leavesList_mul_color {S : Type} [Mul S] (o : S × S × S × S)
    (ls : List (LayerT S)) :
    LayerT.leavesList (LayerT.mulColorList o ls) =
      (LayerT.leavesList ls).map fun f =>
        ⟨f.offset, f.parallax, mulV4 f.color o, f.visible⟩ := by
  cases ls with
  | nil => rfl
  | cons l ls =>
    simp only [LayerT.mulColorList, LayerT.leavesList, List.map_append]
    rw [leaves_mul_color o l, leavesList_mul_color o ls]

end

/-- The transformation parse_group applies to each descendant leaf of its
children: add the group's offset, multiply the parallax and the tint. -/
def groupLeafMap {S : Type} [Mul S] (ga : GroupAttrs S) (f : Leaf S) :
    Leaf S :=
  ⟨(f.offset.1 + ga.offset.1, f.offset.2 + ga.offset.2),
   (f.parallax.1 * ga.parallax.1, f.parallax.2 * ga.parallax.2),
   mulV4 f.color ga.color, f.visible⟩

/-- Mapping a list-level function over the children agrees with the map
of addOffsetList, so the leaf collection of the applied group is the leaf
collection of the children transformed pointwise. -/
theorem leavesList_apply_group_attrs {S : Type} [Mul S]
    (ga : GroupAttrs S) (ls : List (LayerT S)) :
    LayerT.leavesList (apply_group_attrs ga ls) =
      (LayerT.leavesList ls).map (groupLeafMap ga) := by
  induction ls with
  | nil => rfl
  | cons l ls ih =>
    simp only [apply_group_attrs, List.map_cons, LayerT.leavesList,
      List.map_append] at ih ⊢
    rw [leaves_mul_color, leaves_mul_parallax, leaves_add_offset,
      List.map_map, List.map_map, ih]
    rfl

/-- C3: when parse_group succeeds on a group element with attributes
attrs and already-parsed children ls, the returned node is the Group node
still containing those children, and every descendant leaf layer (through
any depth of nested groups) carries the group's offset added to its own
offset, its parallax multiplied componentwise by the group's parallax,
and its tint color multiplied componentwise by the group's tint, while
keeping its own visibility. -/
theorem group_transform_propagation {S : Type} [Mul S] [One S]
    (parseS : List Char → Option S) (byteToUnit : Nat → S)
    (attrs : List (String × String)) (ls : List (LayerT S))
    (g : LayerT S) (ga : GroupAttrs S)
    (hmodel : parse_group_model parseS byteToUnit attrs ls = some g)
    (hattrs : parse_group_attrs parseS byteToUnit attrs = some ga) :
    ∃ ls2, g = .Group ls2 ∧
      LayerT.leavesList ls2 =
        (LayerT.leavesList ls).map (groupLeafMap ga) := by
  refine ⟨apply_group_attrs ga ls, ?_, leavesList_apply_group_attrs ga ls⟩
  simp only [parse_group_model, hattrs] at hmodel
  exact (Option.some.inj hmodel).symm

/-- Concrete nested child forest used to witness the group-propagation
theorems: a tile layer and a sub-group holding an object layer. -/
def lsWit : List (LayerT Int) :=
  [.TileLayer (2, 2) (0, 0) (1, 2) (3, 4) (5, 6, 7, 8) true [1, 2, 3, 4],
   .Group [.ObjectLayer false [] (7, 8) (9, 10) (11, 12, 13, 14) false]]

/-- C3 witness: a group with offsetx 10, offsety 20 and parallaxx 2 over
the concrete children yields the Group node whose two leaves carry the
shifted offsets, scaled parallax, multiplied tint and unchanged
visibility. -/
theorem group_transform_propagation_witness :
    ∃ ls2, (LayerT.Group (apply_group_attrs
        ⟨(10, 20), (2, 1), (1, 1, 1, 1)⟩ lsWit) : LayerT Int) =
        .Group ls2 ∧
      LayerT.leavesList ls2 =
        (LayerT.leavesList lsWit).map
          (groupLeafMap ⟨(10, 20), (2, 1), (1, 1, 1, 1)⟩) :=
  group_transform_propagation parseI32 (fun n => (n : Int))
    [("offsetx", "10"), ("offsety", "20"), ("parallaxx", "2")] lsWit
    (LayerT.Group (apply_group_attrs ⟨(10, 20), (2, 1), (1, 1, 1, 1)⟩
      lsWit))
    ⟨(10, 20), (2, 1), (1, 1, 1, 1)⟩
    (by rfl) (by rfl)

/-- C9: parsing a group element never changes the visibility flag of any
descendant leaf layer: whatever the group's attributes — including any
visible attribute, which the source ignores — the leaves of the returned
Group node have exactly the visibility flags of the parsed children. -/
theorem group_visibility_not_propagated {S : Type} [Mul S] [One S]
    (parseS : List Char → Option S) (byteToUnit : Nat → S)
    (attrs : List (String × String)) (ls : List (LayerT S))
    (g : LayerT S)
    (hmodel : parse_group_model parseS byteToUnit attrs ls = some g) :
    ∃ ls2, g = .Group ls2 ∧
      (LayerT.leavesList ls2).map Leaf.visible =
        (LayerT.leavesList ls).map Leaf.visible := by
  simp only [parse_group_model] at hmodel
  cases hattrs : parse_group_attrs parseS byteToUnit attrs with
  | none => rw [hattrs] at hmodel; cases hmodel
  | some ga =>
    rw [hattrs] at hmodel
    refine ⟨apply_group_attrs ga ls, (Option.some.inj hmodel).symm, ?_⟩
    rw [leavesList_apply_group_attrs ga ls, List.map_map]
    rfl

/-- C9 witness: a group element carrying visible="false" over a child
that is visible leaves the child's leaf visible. -/
theorem group_visibility_not_propagated_witness :
    ∃ ls2, (LayerT.Group (apply_group_attrs
        ⟨(0, 0), (1, 1), (1, 1, 1, 1)⟩
        [.TileLayer (1, 1) (0, 0) (0, 0) (1, 1) (1, 1, 1, 1) true []]) :
          LayerT Int) = .Group ls2 ∧
      (LayerT.leavesList ls2).map Leaf.visible =
        (LayerT.leavesList
          [(.TileLayer (1, 1) (0, 0) (0, 0) (1, 1) (1, 1, 1, 1) true [] :
            LayerT Int)]).map Leaf.visible :=
  group_visibility_not_propagated parseI32 (fun n => (n : Int))
    [("visible", "false")]
    [.TileLayer (1, 1) (0, 0) (0, 0) (1, 1) (1, 1, 1, 1) true []]
    (LayerT.Group (apply_group_attrs ⟨(0, 0), (1, 1), (1, 1, 1, 1)⟩
      [.TileLayer (1, 1) (0, 0) (0, 0) (1, 1) (1, 1, 1, 1) true []]))
    (by rfl)

/-- Evaluation of div2 at a nonzero divisor. -/
theorem div2_eq_some (x d : Int) (hd : d ≠ 0) :
    div2 x d = some (if 0 ≤ x then x.tdiv d else x.tdiv d - 1) := by
  unfold div2 cdiv
  rw [if_neg hd]
  show (if 0 ≤ x then pure (x.tdiv d)
    else pure (x.tdiv d - 1) : Option Int) = _
  split <;> rfl

/-- Evaluation of cdiv at a nonzero divisor. -/
theorem cdiv_eq_some (a b : Int) (hb : b ≠ 0) : cdiv a b = some (a.tdiv b) :=
  by simp [cdiv, hb]

/-- Evaluation of cmod at a nonzero divisor. -/
theorem cmod_eq_some (a b : Int) (hb : b ≠ 0) : cmod a b = some (a.tmod b) :=
  by simp [cmod, hb]

/-- Evaluation of mod2 at a nonzero divisor. -/
theorem mod2_eq_some (x m : Int) (hm : m ≠ 0) :
    mod2 x m = some (if 0 ≤ x.tmod m then x.tmod m else m + x.tmod m) := by
  unfold mod2 cmod
  rw [if_neg hm]
  show (if 0 ≤ x.tmod m then pure (x.tmod m)
    else pure (m + x.tmod m) : Option Int) = _
  split <;> rfl

/-- A bind produces a value when its head produces one and its
continuation always does. -/
theorem exists_bind_some {α β : Type} {o : Option α} {f : α → Option β}
    (ho : ∃ a, o = some a) (hf : ∀ a, ∃ b, f a = some b) :
    ∃ b, (o >>= f) = some b := by
  obtain ⟨a, ha⟩ := ho
  rw [ha]
  exact hf a

/-- An if-then-else of two present options is present. -/
theorem exists_ite_some {α : Type} {c : Prop} [Decidable c]
    {a b : Option α} (ha : ∃ x, a = some x) (hb : ∃ x, b = some x) :
    ∃ x, (if c then a else b) = some x := by
  split
  · exact ha
  · exact hb

/-- Chained evaluation of a bind at explicit values. -/
theorem bind_eq_some_of {α β : Type} {o : Option α} {f : α → Option β}
    {a : α} {b : β} (ho : o = some a) (hf : f a = some b) :
    (o >>= f) = some b := by
  rw [ho]
  exact hf

/-- A bind produces a value when its head produces a known value on which
the continuation produces one. -/
theorem exists_bind_some_at {α β : Type} {o : Option α} {f : α → Option β}
    {a : α} (ho : o = some a) (hf : ∃ b, f a = some b) :
    ∃ b, (o >>= f) = some b := by
  rw [ho]
  exact hf

/-- The fold behind min_by_key keeps a present accumulator present. -/
theorem minByKey_fold_isSome {α : Type} (f : α → Int) (xs : List α)
    (c : α) :
    ∃ v, xs.foldl
      (fun acc x =>
        match acc with
        | none => some x
        | some c => if f x < f c then some x else some c)
      (some c) = some v := by
  induction xs generalizing c with
  | nil => exact ⟨c, rfl⟩
  | cons y ys ih =>
    simp only [List.foldl_cons]
    by_cases h : f y < f c
    · rw [if_pos h]; exact ih y
    · rw [if_neg h]; exact ih c

/-- min_by_key of a nonempty sequence always produces an element. -/
theorem minByKey_isSome {α : Type} (f : α → Int) (x : α) (xs : List α) :
    ∃ v, minByKey f (x :: xs) = some v := by
  simp only [minByKey, List.foldl_cons]
  exact minByKey_fold_isSome f xs x

/-- The staggered-isometric inverse is total as soon as the tile width,
tile height and half tile height are nonzero. -/
theorem isoStagInv_isSome (w h : Nat) (odd sy : Bool) (x y : Int)
    (hw : (w : Int) ≠ 0) (hh : (h : Int) ≠ 0)
    (hhalf : (h : Int).tdiv 2 ≠ 0) :
    ∃ p, TileType.isoStagInv w h odd sy x y = some p := by
  cases odd <;> cases sy <;>
  · unfold TileType.isoStagInv
    dsimp only
    refine exists_bind_some ⟨_, div2_eq_some _ _ hw⟩ fun ref_x => ?_
    refine exists_bind_some ⟨_, div2_eq_some _ _ hh⟩ fun ref_y => ?_
    split
    all_goals
      refine exists_bind_some ⟨_, cmod_eq_some _ _ hhalf⟩ fun m => ?_
      refine exists_bind_some ⟨_, cdiv_eq_some _ _ hhalf⟩ fun off => ?_
      exact ⟨_, rfl⟩

/-- The hexagonal inverse is total as soon as the column and row pitches
are nonzero. -/
theorem hexStagInv_isSome (w h s : Nat) (odd sy : Bool) (x y : Int)
    (hcol : (if sy = true then (w : Int)
      else ((w : Int) - (s : Int)).tdiv 2 + (s : Int) - 1) ≠ 0)
    (hrow : (if sy = true
      then ((h : Int) - (s : Int)).tdiv 2 + (s : Int) - 1
      else (h : Int)) ≠ 0) :
    ∃ p, TileType.hexStagInv w h odd sy s x y = some p := by
  unfold TileType.hexStagInv
  dsimp only
  refine exists_bind_some ⟨_, div2_eq_some _ _ hcol⟩ fun ref_x => ?_
  refine exists_bind_some ⟨_, div2_eq_some _ _ hrow⟩ fun ref_y => ?_
  split
  all_goals
    refine exists_bind_some
      ⟨_, mod2_eq_some _ _ (by norm_num : (2 : Int) ≠ 0)⟩ fun par => ?_
    split
    all_goals
      refine exists_bind_some_at rfl ?_
      refine exists_bind_some (minByKey_isSome _ _ _) fun best => ?_
      exact ⟨_, rfl⟩

/-- The inputs on which pos_to_coord performs no division or remainder by
zero: positive tile sizes everywhere, half tile height nonzero for the
staggered isometric branch, and a nonzero staggered-axis pitch for the
hexagonal branch. -/
def pos_to_coord_defined : TileType → Prop
  | .Ortho w h _ => 0 < w ∧ 0 < h
  | .Isometric w h stagger _ _ _ => 0 < w ∧ 0 < h ∧ (stagger = true → 2 ≤ h)
  | .Hexagonal w h _ sy s _ =>
    0 < w ∧ 0 < h ∧
    (if sy = true then ((h : Int) - (s : Int)).tdiv 2 + (s : Int) - 1 ≠ 0
     else ((w : Int) - (s : Int)).tdiv 2 + (s : Int) - 1 ≠ 0)

instance : DecidablePred pos_to_coord_defined := by
  intro t
  unfold pos_to_coord_defined
  cases t <;> infer_instance

/-- C10 counterexample: the staggered isometric tile type with width 2
and height 1 has both tile dimensions positive, yet pos_to_coord panics
at the origin — the half tile height is zero and rel_y % half_h divides
by zero — so pos_to_coord is not total under the claim's conditions. -/
theorem pos_to_coord_divzero_counterexample :
    (0 < 2 ∧ 0 < 1) ∧
    (TileType.Isometric 2 1 true true true .RightDown).pos_to_coord 0 0 0 =
      none := by decide

/-- C10 (amended): pos_to_coord performs no division or remainder by zero
and always returns a coordinate, for every layer height and every integer
pixel input, provided tile width and height are positive, the tile height
of a staggered isometric type is additionally at least 2 (so that its
half height is nonzero), and the derived pitch
(dimension - side_length)/2 + side_length - 1 of a hexagonal type is
nonzero. -/
theorem pos_to_coord_total (t : TileType) (lh x y : Int)
    (hdef : pos_to_coord_defined t) :
    ∃ p, t.pos_to_coord lh x y = some p := by
  cases t with
  | Ortho w h ro =>
    obtain ⟨hw, hh⟩ := hdef
    have hw2 : (w : Int) ≠ 0 := Int.natCast_ne_zero.mpr (by omega)
    have hh2 : (h : Int) ≠ 0 := Int.natCast_ne_zero.mpr (by omega)
    unfold TileType.pos_to_coord
    dsimp only
    refine exists_bind_some ⟨_, cdiv_eq_some _ _ hw2⟩ fun rx => ?_
    refine exists_bind_some ⟨_, cdiv_eq_some _ _ hh2⟩ fun ry => ?_
    exact ⟨_, rfl⟩
  | Isometric w h stagger odd sy ro =>
    obtain ⟨hw, hh, hst⟩ := hdef
    have hw2 : (w : Int) ≠ 0 := Int.natCast_ne_zero.mpr (by omega)
    have hh2 : (h : Int) ≠ 0 := Int.natCast_ne_zero.mpr (by omega)
    cases stagger with
    | true =>
      have hhalf : (h : Int).tdiv 2 ≠ 0 := by
        rw [Int.tdiv_eq_ediv (by positivity) (by norm_num)]
        have : 2 ≤ h := hst rfl
        have : (2 : Int) ≤ (h : Int) := by exact_mod_cast this
        omega
      exact isoStagInv_isSome w h odd sy x y hw2 hh2 hhalf
    | false =>
      unfold TileType.pos_to_coord
      dsimp only
      rw [if_neg (by simp)]
      refine exists_bind_some ⟨_, cdiv_eq_some _ _ hh2⟩ fun qy => ?_
      refine exists_bind_some ⟨_, cdiv_eq_some _ _ hw2⟩ fun qx => ?_
      exact ⟨_, rfl⟩
  | Hexagonal w h odd sy s ro =>
    obtain ⟨hw, hh, hpitch⟩ := hdef
    have hw2 : (w : Int) ≠ 0 := Int.natCast_ne_zero.mpr (by omega)
    have hh2 : (h : Int) ≠ 0 := Int.natCast_ne_zero.mpr (by omega)
    refine hexStagInv_isSome w h s odd sy x y ?_ ?_
    · cases sy with
      | true => simpa using hw2
      | false => simpa using hpitch
    · cases sy with
      | true => simpa using hpitch
      | false => simpa using hh2

/-- C10 witness: the staggered isometric type 8x4 satisfies the amended
conditions and pos_to_coord yields a coordinate at a concrete pixel. -/
theorem pos_to_coord_total_witness :
    pos_to_coord_defined (.Isometric 8 4 true true true .RightDown) ∧
    ∃ p, (TileType.Isometric 8 4 true true true .RightDown).pos_to_coord
      0 13 (-7) = some p :=
  ⟨by decide,
   pos_to_coord_total (.Isometric 8 4 true true true .RightDown) 0 13 (-7)
     (by decide)⟩

theorem div2_mul_add (k r d : Int) (hd : 0 < d) (hk : 0 ≤ k) (h0 : 0 ≤ r)
    (h1 : r < d) : div2 (k * d + r) d = some k := by
  have hx : 0 ≤ k * d + r := by
    have := mul_nonneg hk (le_of_lt hd)
    omega
  rw [div2_eq_some _ _ (ne_of_gt hd), if_pos hx]
  congr 1
  rw [Int.tdiv_eq_ediv hx (le_of_lt hd), Int.add_comm,
    Int.add_mul_ediv_right _ _ (ne_of_gt hd),
    Int.ediv_eq_zero_of_lt h0 h1]
  omega

theorem tmod_small (r d : Int) (h0 : 0 ≤ r) (h1 : r < d) : r.tmod d = r := by
  rw [Int.tmod_eq_emod h0 (by omega)]
  exact Int.emod_eq_of_lt h0 h1

/-- Roundtrip core, staggered isometric, stagger_y, odd staggering,
even row: querying the center column pixel of row 2k lands back in
(x, 2k). -/
theorem isoRound_y_odd_even (a b : Nat) (x k : Int) (ha : 1 ≤ a)
    (hb : 1 ≤ b) (hx : 0 ≤ x) (hk : 0 ≤ k) :
    TileType.isoStagInv (2 * a) (2 * b) true true
      (x * (2 * (a : Int)) + a) ((b : Int) * (2 * k) + b) =
      some (x, 2 * k) := by
  have haI : (1 : Int) ≤ (a : Int) := by exact_mod_cast ha
  have hbI : (1 : Int) ≤ (b : Int) := by exact_mod_cast hb
  have hBne : ((b : Int)) ≠ 0 := by omega
  unfold TileType.isoStagInv
  dsimp only
  push_cast
  rw [show ((2 : Int) * (a : Int)).tdiv 2 = (a : Int) from
      Int.mul_tdiv_cancel_left _ (by norm_num),
    show ((2 : Int) * (b : Int)).tdiv 2 = (b : Int) from
      Int.mul_tdiv_cancel_left _ (by norm_num)]
  rw [show (b : Int) * (2 * k) + b = k * (2 * (b : Int)) + b from by ring]
  refine bind_eq_some_of
    (div2_mul_add x (a : Int) (2 * (a : Int)) (by omega) hx (by omega)
      (by omega)) ?_
  dsimp only
  refine bind_eq_some_of
    (div2_mul_add k (b : Int) (2 * (b : Int)) (by omega) hk (by omega)
      (by omega)) ?_
  dsimp only
  rw [show k * (2 * (b : Int)) + b - k * (2 * (b : Int)) = (b : Int)
      from by ring,
    show x * (2 * (a : Int)) + a - x * (2 * (a : Int)) = (a : Int)
      from by ring]
  rw [if_neg (lt_irrefl (b : Int))]
  refine bind_eq_some_of
    (show cmod (b : Int) (b : Int) = some 0 from by
      rw [cmod_eq_some _ _ hBne, Int.tmod_self]) ?_
  dsimp only
  refine bind_eq_some_of
    (show cdiv (0 * (a : Int)) (b : Int) = some 0 from by
      rw [zero_mul, cdiv_eq_some _ _ hBne, Int.zero_tdiv]) ?_
  dsimp only
  rw [decide_eq_false (lt_irrefl (b : Int)),
    decide_eq_false (show ¬((a : Int) < 0) by omega),
    decide_eq_false (show ¬((a : Int) > 2 * (a : Int) - 0) by omega)]
  dsimp only
  rw [show x + 0 = x from by ring, show k * 2 + 0 = 2 * k from by ring]
  rfl

/-- Roundtrip core, staggered isometric, stagger_y, odd staggering, odd
row. -/
theorem isoRound_y_odd_odd (a b : Nat) (x k : Int) (ha : 1 ≤ a)
    (hb : 1 ≤ b) (hx : 0 ≤ x) (hk : 0 ≤ k) :
    TileType.isoStagInv (2 * a) (2 * b) true true
      (x * (2 * (a : Int)) + a + a) ((b : Int) * (2 * k) + b + b) =
      some (x, 2 * k + 1) := by
  have haI : (1 : Int) ≤ (a : Int) := by exact_mod_cast ha
  have hbI : (1 : Int) ≤ (b : Int) := by exact_mod_cast hb
  have hBne : ((b : Int)) ≠ 0 := by omega
  unfold TileType.isoStagInv
  dsimp only
  push_cast
  rw [show ((2 : Int) * (a : Int)).tdiv 2 = (a : Int) from
      Int.mul_tdiv_cancel_left _ (by norm_num),
    show ((2 : Int) * (b : Int)).tdiv 2 = (b : Int) from
      Int.mul_tdiv_cancel_left _ (by norm_num)]
  rw [show x * (2 * (a : Int)) + a + a = (x + 1) * (2 * (a : Int)) + 0
      from by ring,
    show (b : Int) * (2 * k) + b + b = (k + 1) * (2 * (b : Int)) + 0
      from by ring]
  refine bind_eq_some_of
    (div2_mul_add (x + 1) 0 (2 * (a : Int)) (by omega) (by omega) le_rfl
      (by omega)) ?_
  dsimp only
  refine bind_eq_some_of
    (div2_mul_add (k + 1) 0 (2 * (b : Int)) (by omega) (by omega) le_rfl
      (by omega)) ?_
  dsimp only
  rw [show (k + 1) * (2 * (b : Int)) + 0 - (k + 1) * (2 * (b : Int)) = 0
      from by ring,
    show (x + 1) * (2 * (a : Int)) + 0 - (x + 1) * (2 * (a : Int)) = 0
      from by ring]
  rw [if_pos (show (0 : Int) < (b : Int) by omega)]
  refine bind_eq_some_of
    (show cmod 0 (b : Int) = some 0 from by
      rw [cmod_eq_some _ _ hBne]; norm_num) ?_
  dsimp only
  refine bind_eq_some_of
    (show cdiv (((b : Int) - 0) * (a : Int)) (b : Int) = some (a : Int)
      from by
        rw [show ((b : Int) - 0) * (a : Int) = (b : Int) * (a : Int) from
          by ring, cdiv_eq_some _ _ hBne,
          Int.mul_tdiv_cancel_left _ hBne]) ?_
  dsimp only
  rw [decide_eq_true (show (0 : Int) < (b : Int) by omega),
    decide_eq_true (show (0 : Int) < (a : Int) by omega),
    decide_eq_false (show ¬((0 : Int) > 2 * (a : Int) - (a : Int)) by
      omega)]
  dsimp only
  rw [show x + 1 - 1 + 0 = x from by ring,
    show (k + 1) * 2 - 1 + 0 = 2 * k + 1 from by ring]
  rfl

/-- Roundtrip core, staggered isometric, stagger_y, even staggering,
even row. -/
theorem isoRound_y_even_even (a b : Nat) (x k : Int) (ha : 1 ≤ a)
    (hb : 1 ≤ b) (hx : 0 ≤ x) (hk : 0 ≤ k) :
    TileType.isoStagInv (2 * a) (2 * b) false true
      (x * (2 * (a : Int)) + a + a) ((b : Int) * (2 * k) + b) =
      some (x, 2 * k) := by
  have haI : (1 : Int) ≤ (a : Int) := by exact_mod_cast ha
  have hbI : (1 : Int) ≤ (b : Int) := by exact_mod_cast hb
  have hBne : ((b : Int)) ≠ 0 := by omega
  unfold TileType.isoStagInv
  dsimp only
  push_cast
  rw [show ((2 : Int) * (a : Int)).tdiv 2 = (a : Int) from
      Int.mul_tdiv_cancel_left _ (by norm_num),
    show ((2 : Int) * (b : Int)).tdiv 2 = (b : Int) from
      Int.mul_tdiv_cancel_left _ (by norm_num)]
  rw [show x * (2 * (a : Int)) + a + a = (x + 1) * (2 * (a : Int)) + 0
      from by ring,
    show (b : Int) * (2 * k) + b - b = k * (2 * (b : Int)) + 0
      from by ring]
  refine bind_eq_some_of
    (div2_mul_add (x + 1) 0 (2 * (a : Int)) (by omega) (by omega) le_rfl
      (by omega)) ?_
  dsimp only
  refine bind_eq_some_of
    (div2_mul_add k 0 (2 * (b : Int)) (by omega) hk le_rfl (by omega)) ?_
  dsimp only
  rw [show k * (2 * (b : Int)) + 0 - k * (2 * (b : Int)) = 0 from by ring,
    show (x + 1) * (2 * (a : Int)) + 0 - (x + 1) * (2 * (a : Int)) = 0
      from by ring]
  rw [if_pos (show (0 : Int) < (b : Int) by omega)]
  refine bind_eq_some_of
    (show cmod 0 (b : Int) = some 0 from by
      rw [cmod_eq_some _ _ hBne]; norm_num) ?_
  dsimp only
  refine bind_eq_some_of
    (show cdiv (((b : Int) - 0) * (a : Int)) (b : Int) = some (a : Int)
      from by
        rw [show ((b : Int) - 0) * (a : Int) = (b : Int) * (a : Int) from
          by ring, cdiv_eq_some _ _ hBne,
          Int.mul_tdiv_cancel_left _ hBne]) ?_
  dsimp only
  rw [decide_eq_true (show (0 : Int) < (b : Int) by omega),
    decide_eq_true (show (0 : Int) < (a : Int) by omega),
    decide_eq_false (show ¬((0 : Int) > 2 * (a : Int) - (a : Int)) by
      omega)]
  dsimp only
  rw [show x + 1 - 1 + 0 = x from by ring,
    show k * 2 - 1 + 1 = 2 * k from by ring]
  rfl

/-- Roundtrip core, staggered isometric, stagger_y, even staggering, odd
row. -/
theorem isoRound_y_even_odd (a b : Nat) (x k : Int) (ha : 1 ≤ a)
    (hb : 1 ≤ b) (hx : 0 ≤ x) (hk : 0 ≤ k) :
    TileType.isoStagInv (2 * a) (2 * b) false true
      (x * (2 * (a : Int)) + a) ((b : Int) * (2 * k + 1) + b) =
      some (x, 2 * k + 1) := by
  have haI : (1 : Int) ≤ (a : Int) := by exact_mod_cast ha
  have hbI : (1 : Int) ≤ (b : Int) := by exact_mod_cast hb
  have hBne : ((b : Int)) ≠ 0 := by omega
  unfold TileType.isoStagInv
  dsimp only
  push_cast
  rw [show ((2 : Int) * (a : Int)).tdiv 2 = (a : Int) from
      Int.mul_tdiv_cancel_left _ (by norm_num),
    show ((2 : Int) * (b : Int)).tdiv 2 = (b : Int) from
      Int.mul_tdiv_cancel_left _ (by norm_num)]
  rw [show (b : Int) * (2 * k + 1) + b - b = k * (2 * (b : Int)) + b
      from by ring]
  refine bind_eq_some_of
    (div2_mul_add x (a : Int) (2 * (a : Int)) (by omega) hx (by omega)
      (by omega)) ?_
  dsimp only
  refine bind_eq_some_of
    (div2_mul_add k (b : Int) (2 * (b : Int)) (by omega) hk (by omega)
      (by omega)) ?_
  dsimp only
  rw [show k * (2 * (b : Int)) + b - k * (2 * (b : Int)) = (b : Int)
      from by ring,
    show x * (2 * (a : Int)) + a - x * (2 * (a : Int)) = (a : Int)
      from by ring]
  rw [if_neg (lt_irrefl (b : Int))]
  refine bind_eq_some_of
    (show cmod (b : Int) (b : Int) = some 0 from by
      rw [cmod_eq_some _ _ hBne, Int.tmod_self]) ?_
  dsimp only
  refine bind_eq_some_of
    (show cdiv (0 * (a : Int)) (b : Int) = some 0 from by
      rw [zero_mul, cdiv_eq_some _ _ hBne, Int.zero_tdiv]) ?_
  dsimp only
  rw [decide_eq_false (lt_irrefl (b : Int)),
    decide_eq_false (show ¬((a : Int) < 0) by omega),
    decide_eq_false (show ¬((a : Int) > 2 * (a : Int) - 0) by omega)]
  dsimp only
  rw [show x + 0 = x from by ring, show k * 2 + 1 = 2 * k + 1 from by ring]
  rfl

/-- Roundtrip core, staggered isometric, stagger_x, odd staggering, even
column. -/
theorem isoRound_x_odd_even (a b : Nat) (j y : Int) (ha : 1 ≤ a)
    (hb : 1 ≤ b) (hj : 0 ≤ j) (hy : 0 ≤ y) :
    TileType.isoStagInv (2 * a) (2 * b) true false
      ((a : Int) * (2 * j) + a) (y * (2 * (b : Int)) + b) =
      some (2 * j, y) := by
  have haI : (1 : Int) ≤ (a : Int) := by exact_mod_cast ha
  have hbI : (1 : Int) ≤ (b : Int) := by exact_mod_cast hb
  have hBne : ((b : Int)) ≠ 0 := by omega
  unfold TileType.isoStagInv
  dsimp only
  push_cast
  rw [show ((2 : Int) * (a : Int)).tdiv 2 = (a : Int) from
      Int.mul_tdiv_cancel_left _ (by norm_num),
    show ((2 : Int) * (b : Int)).tdiv 2 = (b : Int) from
      Int.mul_tdiv_cancel_left _ (by norm_num)]
  rw [show (a : Int) * (2 * j) + a = j * (2 * (a : Int)) + a from by ring]
  refine bind_eq_some_of
    (div2_mul_add j (a : Int) (2 * (a : Int)) (by omega) hj (by omega)
      (by omega)) ?_
  dsimp only
  refine bind_eq_some_of
    (div2_mul_add y (b : Int) (2 * (b : Int)) (by omega) hy (by omega)
      (by omega)) ?_
  dsimp only
  rw [show y * (2 * (b : Int)) + b - y * (2 * (b : Int)) = (b : Int)
      from by ring,
    show j * (2 * (a : Int)) + a - j * (2 * (a : Int)) = (a : Int)
      from by ring]
  rw [if_neg (lt_irrefl (b : Int))]
  refine bind_eq_some_of
    (show cmod (b : Int) (b : Int) = some 0 from by
      rw [cmod_eq_some _ _ hBne, Int.tmod_self]) ?_
  dsimp only
  refine bind_eq_some_of
    (show cdiv (0 * (a : Int)) (b : Int) = some 0 from by
      rw [zero_mul, cdiv_eq_some _ _ hBne, Int.zero_tdiv]) ?_
  dsimp only
  rw [decide_eq_false (lt_irrefl (b : Int)),
    decide_eq_false (show ¬((a : Int) < 0) by omega),
    decide_eq_false (show ¬((a : Int) > 2 * (a : Int) - 0) by omega)]
  dsimp only
  rw [show j * 2 + 0 = 2 * j from by ring, show y + 0 = y from by ring]
  rfl

/-- Roundtrip core, staggered isometric, stagger_x, odd staggering, odd
column. -/
theorem isoRound_x_odd_odd (a b : Nat) (j y : Int) (ha : 1 ≤ a)
    (hb : 1 ≤ b) (hj : 0 ≤ j) (hy : 0 ≤ y) :
    TileType.isoStagInv (2 * a) (2 * b) true false
      ((a : Int) * (2 * j + 1) + a) (y * (2 * (b : Int)) + b + b) =
      some (2 * j + 1, y) := by
  have haI : (1 : Int) ≤ (a : Int) := by exact_mod_cast ha
  have hbI : (1 : Int) ≤ (b : Int) := by exact_mod_cast hb
  have hBne : ((b : Int)) ≠ 0 := by omega
  unfold TileType.isoStagInv
  dsimp only
  push_cast
  rw [show ((2 : Int) * (a : Int)).tdiv 2 = (a : Int) from
      Int.mul_tdiv_cancel_left _ (by norm_num),
    show ((2 : Int) * (b : Int)).tdiv 2 = (b : Int) from
      Int.mul_tdiv_cancel_left _ (by norm_num)]
  rw [show (a : Int) * (2 * j + 1) + a = (j + 1) * (2 * (a : Int)) + 0
      from by ring,
    show y * (2 * (b : Int)) + b + b = (y + 1) * (2 * (b : Int)) + 0
      from by ring]
  refine bind_eq_some_of
    (div2_mul_add (j + 1) 0 (2 * (a : Int)) (by omega) (by omega) le_rfl
      (by omega)) ?_
  dsimp only
  refine bind_eq_some_of
    (div2_mul_add (y + 1) 0 (2 * (b : Int)) (by omega) (by omega) le_rfl
      (by omega)) ?_
  dsimp only
  rw [show (y + 1) * (2 * (b : Int)) + 0 - (y + 1) * (2 * (b : Int)) = 0
      from by ring,
    show (j + 1) * (2 * (a : Int)) + 0 - (j + 1) * (2 * (a : Int)) = 0
      from by ring]
  rw [if_pos (show (0 : Int) < (b : Int) by omega)]
  refine bind_eq_some_of
    (show cmod 0 (b : Int) = some 0 from by
      rw [cmod_eq_some _ _ hBne]; norm_num) ?_
  dsimp only
  refine bind_eq_some_of
    (show cdiv (((b : Int) - 0) * (a : Int)) (b : Int) = some (a : Int)
      from by
        rw [show ((b : Int) - 0) * (a : Int) = (b : Int) * (a : Int) from
          by ring, cdiv_eq_some _ _ hBne,
          Int.mul_tdiv_cancel_left _ hBne]) ?_
  dsimp only
  rw [decide_eq_true (show (0 : Int) < (b : Int) by omega),
    decide_eq_true (show (0 : Int) < (a : Int) by omega),
    decide_eq_false (show ¬((0 : Int) > 2 * (a : Int) - (a : Int)) by
      omega)]
  dsimp only
  rw [show (j + 1) * 2 - 1 + 0 = 2 * j + 1 from by ring,
    show y + 1 - 1 + 0 = y from by ring]
  rfl

/-- Roundtrip core, staggered isometric, stagger_x, even staggering,
even column. -/
theorem isoRound_x_even_even (a b : Nat) (j y : Int) (ha : 1 ≤ a)
    (hb : 1 ≤ b) (hj : 0 ≤ j) (hy : 0 ≤ y) :
    TileType.isoStagInv (2 * a) (2 * b) false false
      ((a : Int) * (2 * j) + a) (y * (2 * (b : Int)) + b + b) =
      some (2 * j, y) := by
  have haI : (1 : Int) ≤ (a : Int) := by exact_mod_cast ha
  have hbI : (1 : Int) ≤ (b : Int) := by exact_mod_cast hb
  have hBne : ((b : Int)) ≠ 0 := by omega
  unfold TileType.isoStagInv
  dsimp only
  push_cast
  rw [show ((2 : Int) * (a : Int)).tdiv 2 = (a : Int) from
      Int.mul_tdiv_cancel_left _ (by norm_num),
    show ((2 : Int) * (b : Int)).tdiv 2 = (b : Int) from
      Int.mul_tdiv_cancel_left _ (by norm_num)]
  rw [show (a : Int) * (2 * j) + a - a = j * (2 * (a : Int)) + 0
      from by ring,
    show y * (2 * (b : Int)) + b + b = (y + 1) * (2 * (b : Int)) + 0
      from by ring]
  refine bind_eq_some_of
    (div2_mul_add j 0 (2 * (a : Int)) (by omega) hj le_rfl (by omega)) ?_
  dsimp only
  refine bind_eq_some_of
    (div2_mul_add (y + 1) 0 (2 * (b : Int)) (by omega) (by omega) le_rfl
      (by omega)) ?_
  dsimp only
  rw [show (y + 1) * (2 * (b : Int)) + 0 - (y + 1) * (2 * (b : Int)) = 0
      from by ring,
    show j * (2 * (a : Int)) + 0 - j * (2 * (a : Int)) = 0 from by ring]
  rw [if_pos (show (0 : Int) < (b : Int) by omega)]
  refine bind_eq_some_of
    (show cmod 0 (b : Int) = some 0 from by
      rw [cmod_eq_some _ _ hBne]; norm_num) ?_
  dsimp only
  refine bind_eq_some_of
    (show cdiv (((b : Int) - 0) * (a : Int)) (b : Int) = some (a : Int)
      from by
        rw [show ((b : Int) - 0) * (a : Int) = (b : Int) * (a : Int) from
          by ring, cdiv_eq_some _ _ hBne,
          Int.mul_tdiv_cancel_left _ hBne]) ?_
  dsimp only
  rw [decide_eq_true (show (0 : Int) < (b : Int) by omega),
    decide_eq_true (show (0 : Int) < (a : Int) by omega),
    decide_eq_false (show ¬((0 : Int) > 2 * (a : Int) - (a : Int)) by
      omega)]
  dsimp only
  rw [show j * 2 - 1 + 1 = 2 * j from by ring,
    show y + 1 - 1 + 0 = y from by ring]
  rfl

/-- Roundtrip core, staggered isometric, stagger_x, even staggering, odd
column. -/
theorem isoRound_x_even_odd (a b : Nat) (j y : Int) (ha : 1 ≤ a)
    (hb : 1 ≤ b) (hj : 0 ≤ j) (hy : 0 ≤ y) :
    TileType.isoStagInv (2 * a) (2 * b) false false
      ((a : Int) * (2 * j + 1) + a) (y * (2 * (b : Int)) + b) =
      some (2 * j + 1, y) := by
  have haI : (1 : Int) ≤ (a : Int) := by exact_mod_cast ha
  have hbI : (1 : Int) ≤ (b : Int) := by exact_mod_cast hb
  have hBne : ((b : Int)) ≠ 0 := by omega
  unfold TileType.isoStagInv
  dsimp only
  push_cast
  rw [show ((2 : Int) * (a : Int)).tdiv 2 = (a : Int) from
      Int.mul_tdiv_cancel_left _ (by norm_num),
    show ((2 : Int) * (b : Int)).tdiv 2 = (b : Int) from
      Int.mul_tdiv_cancel_left _ (by norm_num)]
  rw [show (a : Int) * (2 * j + 1) + a - a = j * (2 * (a : Int)) + a
      from by ring]
  refine bind_eq_some_of
    (div2_mul_add j (a : Int) (2 * (a : Int)) (by omega) hj (by omega)
      (by omega)) ?_
  dsimp only
  refine bind_eq_some_of
    (div2_mul_add y (b : Int) (2 * (b : Int)) (by omega) hy (by omega)
      (by omega)) ?_
  dsimp only
  rw [show y * (2 * (b : Int)) + b - y * (2 * (b : Int)) = (b : Int)
      from by ring,
    show j * (2 * (a : Int)) + a - j * (2 * (a : Int)) = (a : Int)
      from by ring]
  rw [if_neg (lt_irrefl (b : Int))]
  refine bind_eq_some_of
    (show cmod (b : Int) (b : Int) = some 0 from by
      rw [cmod_eq_some _ _ hBne, Int.tmod_self]) ?_
  dsimp only
  refine bind_eq_some_of
    (show cdiv (0 * (a : Int)) (b : Int) = some 0 from by
      rw [zero_mul, cdiv_eq_some _ _ hBne, Int.zero_tdiv]) ?_
  dsimp only
  rw [decide_eq_false (lt_irrefl (b : Int)),
    decide_eq_false (show ¬((a : Int) < 0) by omega),
    decide_eq_false (show ¬((a : Int) > 2 * (a : Int) - 0) by omega)]
  dsimp only
  rw [show j * 2 + 1 = 2 * j + 1 from by ring,
    show y + 0 = y from by ring]
  rfl

/-- Center-query roundtrip for the staggered isometric layouts: for even
tile sizes and nonnegative tile coordinates, pos_to_coord applied to the
center of the tile returned by coord_to_pos recovers the coordinates. -/
theorem iso_center_roundtrip (a b : Nat) (odd sy : Bool)
    (ro : RenderOrder) (lh x y : Int) (p : Int × Int) (ha : 1 ≤ a)
    (hb : 1 ≤ b) (hx : 0 ≤ x) (hy : 0 ≤ y)
    (hp : (TileType.Isometric (2 * a) (2 * b) true odd sy
      ro).coord_to_pos lh x y = some p) :
    (TileType.Isometric (2 * a) (2 * b) true odd sy ro).pos_to_coord lh
      (p.1 + a) (p.2 + b) = some (x, y) := by
  cases sy with
  | true =>
    rcases Int.even_or_odd y with ⟨k, hk⟩ | ⟨k, hk⟩
    · have hk2 : y = 2 * k := by omega
      subst hk2
      cases odd with
      | true =>
        have hp2 : (TileType.Isometric (2 * a) (2 * b) true true true
            ro).coord_to_pos lh x (2 * k) =
            some (x * (2 * (a : Int)), (b : Int) * (2 * k)) := by
          unfold TileType.coord_to_pos
          dsimp only
          rw [if_pos rfl, if_pos rfl]
          rw [show (2 * k).tmod 2 = 0 from by
            rw [Int.tmod_eq_emod (by omega) (by norm_num)]; omega]
          rw [if_neg (show ¬(((0 : Int) == 1) = true) by decide)]
          push_cast
          rw [show ((2 : Int) * (b : Int) * (2 * k)).tdiv 2 =
              (b : Int) * (2 * k) from by
            rw [show (2 : Int) * (b : Int) * (2 * k) =
              2 * ((b : Int) * (2 * k)) from by ring]
            exact Int.mul_tdiv_cancel_left _ (by norm_num)]
        have hpe : p = (x * (2 * (a : Int)), (b : Int) * (2 * k)) :=
          (Option.some.inj (hp2.symm.trans hp)).symm
        subst hpe
        exact isoRound_y_odd_even a b x k ha hb hx (by omega)
      | false =>
        have hp2 : (TileType.Isometric (2 * a) (2 * b) true false true
            ro).coord_to_pos lh x (2 * k) =
            some (x * (2 * (a : Int)) + a, (b : Int) * (2 * k)) := by
          unfold TileType.coord_to_pos
          dsimp only
          rw [if_pos rfl, if_pos rfl]
          rw [show (2 * k).tmod 2 = 0 from by
            rw [Int.tmod_eq_emod (by omega) (by norm_num)]; omega]
          rw [if_pos (show ((0 : Int) == 1) = false by decide)]
          push_cast
          rw [show ((2 : Int) * (b : Int) * (2 * k)).tdiv 2 =
              (b : Int) * (2 * k) from by
            rw [show (2 : Int) * (b : Int) * (2 * k) =
              2 * ((b : Int) * (2 * k)) from by ring]
            exact Int.mul_tdiv_cancel_left _ (by norm_num),
            show ((2 : Int) * (a : Int)).tdiv 2 = (a : Int) from
              Int.mul_tdiv_cancel_left _ (by norm_num)]
        have hpe : p = (x * (2 * (a : Int)) + a, (b : Int) * (2 * k)) :=
          (Option.some.inj (hp2.symm.trans hp)).symm
        subst hpe
        exact isoRound_y_even_even a b x k ha hb hx (by omega)
    · have hk2 : y = 2 * k + 1 := by omega
      subst hk2
      cases odd with
      | true =>
        have hp2 : (TileType.Isometric (2 * a) (2 * b) true true true
            ro).coord_to_pos lh x (2 * k + 1) =
            some (x * (2 * (a : Int)) + a, (b : Int) * (2 * k + 1)) := by
          unfold TileType.coord_to_pos
          dsimp only
          rw [if_pos rfl, if_pos rfl]
          rw [show (2 * k + 1).tmod 2 = 1 from by
            rw [Int.tmod_eq_emod (by omega) (by norm_num)]; omega]
          rw [if_pos (show ((1 : Int) == 1) = true by decide)]
          push_cast
          rw [show ((2 : Int) * (b : Int) * (2 * k + 1)).tdiv 2 =
              (b : Int) * (2 * k + 1) from by
            rw [show (2 : Int) * (b : Int) * (2 * k + 1) =
              2 * ((b : Int) * (2 * k + 1)) from by ring]
            exact Int.mul_tdiv_cancel_left _ (by norm_num),
            show ((2 : Int) * (a : Int)).tdiv 2 = (a : Int) from
              Int.mul_tdiv_cancel_left _ (by norm_num)]
        have hpe : p = (x * (2 * (a : Int)) + a, (b : Int) * (2 * k + 1))
          := (Option.some.inj (hp2.symm.trans hp)).symm
        subst hpe
        dsimp only
        rw [show (b : Int) * (2 * k + 1) + b =
          (b : Int) * (2 * k) + b + b from by ring]
        exact isoRound_y_odd_odd a b x k ha hb hx (by omega)
      | false =>
        have hp2 : (TileType.Isometric (2 * a) (2 * b) true false true
            ro).coord_to_pos lh x (2 * k + 1) =
            some (x * (2 * (a : Int)), (b : Int) * (2 * k + 1)) := by
          unfold TileType.coord_to_pos
          dsimp only
          rw [if_pos rfl, if_pos rfl]
          rw [show (2 * k + 1).tmod 2 = 1 from by
            rw [Int.tmod_eq_emod (by omega) (by norm_num)]; omega]
          rw [if_neg (show ¬(((1 : Int) == 1) = false) by decide)]
          push_cast
          rw [show ((2 : Int) * (b : Int) * (2 * k + 1)).tdiv 2 =
              (b : Int) * (2 * k + 1) from by
            rw [show (2 : Int) * (b : Int) * (2 * k + 1) =
              2 * ((b : Int) * (2 * k + 1)) from by ring]
            exact Int.mul_tdiv_cancel_left _ (by norm_num)]
        have hpe : p = (x * (2 * (a : Int)), (b : Int) * (2 * k + 1)) :=
          (Option.some.inj (hp2.symm.trans hp)).symm
        subst hpe
        exact isoRound_y_even_odd a b x k ha hb hx (by omega)
  | false =>
    rcases Int.even_or_odd x with ⟨j, hj⟩ | ⟨j, hj⟩
    · have hj2 : x = 2 * j := by omega
      subst hj2
      cases odd with
      | true =>
        have hp2 : (TileType.Isometric (2 * a) (2 * b) true true false
            ro).coord_to_pos lh (2 * j) y =
            some ((a : Int) * (2 * j), y * (2 * (b : Int))) := by
          unfold TileType.coord_to_pos
          dsimp only
          rw [if_pos rfl, if_neg (show ¬(false = true) by decide)]
          rw [show (2 * j).tmod 2 = 0 from by
            rw [Int.tmod_eq_emod (by omega) (by norm_num)]; omega]
          rw [if_neg (show ¬(((0 : Int) == 1) = true) by decide)]
          push_cast
          rw [show ((2 : Int) * (a : Int) * (2 * j)).tdiv 2 =
              (a : Int) * (2 * j) from by
            rw [show (2 : Int) * (a : Int) * (2 * j) =
              2 * ((a : Int) * (2 * j)) from by ring]
            exact Int.mul_tdiv_cancel_left _ (by norm_num)]
        have hpe : p = ((a : Int) * (2 * j), y * (2 * (b : Int))) :=
          (Option.some.inj (hp2.symm.trans hp)).symm
        subst hpe
        exact isoRound_x_odd_even a b j y ha hb (by omega) hy
      | false =>
        have hp2 : (TileType.Isometric (2 * a) (2 * b) true false false
            ro).coord_to_pos lh (2 * j) y =
            some ((a : Int) * (2 * j), y * (2 * (b : Int)) + b) := by
          unfold TileType.coord_to_pos
          dsimp only
          rw [if_pos rfl, if_neg (show ¬(false = true) by decide)]
          rw [show (2 * j).tmod 2 = 0 from by
            rw [Int.tmod_eq_emod (by omega) (by norm_num)]; omega]
          rw [if_pos (show ((0 : Int) == 1) = false by decide)]
          push_cast
          rw [show ((2 : Int) * (a : Int) * (2 * j)).tdiv 2 =
              (a : Int) * (2 * j) from by
            rw [show (2 : Int) * (a : Int) * (2 * j) =
              2 * ((a : Int) * (2 * j)) from by ring]
            exact Int.mul_tdiv_cancel_left _ (by norm_num),
            show ((2 : Int) * (b : Int)).tdiv 2 = (b : Int) from
              Int.mul_tdiv_cancel_left _ (by norm_num)]
        have hpe : p = ((a : Int) * (2 * j), y * (2 * (b : Int)) + b) :=
          (Option.some.inj (hp2.symm.trans hp)).symm
        subst hpe
        exact isoRound_x_even_even a b j y ha hb (by omega) hy
    · have hj2 : x = 2 * j + 1 := by omega
      subst hj2
      cases odd with
      | true =>
        have hp2 : (TileType.Isometric (2 * a) (2 * b) true true false
            ro).coord_to_pos lh (2 * j + 1) y =
            some ((a : Int) * (2 * j + 1), y * (2 * (b : Int)) + b) := by
          unfold TileType.coord_to_pos
          dsimp only
          rw [if_pos rfl, if_neg (show ¬(false = true) by decide)]
          rw [show (2 * j + 1).tmod 2 = 1 from by
            rw [Int.tmod_eq_emod (by omega) (by norm_num)]; omega]
          rw [if_pos (show ((1 : Int) == 1) = true by decide)]
          push_cast
          rw [show ((2 : Int) * (a : Int) * (2 * j + 1)).tdiv 2 =
              (a : Int) * (2 * j + 1) from by
            rw [show (2 : Int) * (a : Int) * (2 * j + 1) =
              2 * ((a : Int) * (2 * j + 1)) from by ring]
            exact Int.mul_tdiv_cancel_left _ (by norm_num),
            show ((2 : Int) * (b : Int)).tdiv 2 = (b : Int) from
              Int.mul_tdiv_cancel_left _ (by norm_num)]
        have hpe : p = ((a : Int) * (2 * j + 1), y * (2 * (b : Int)) + b)
          := (Option.some.inj (hp2.symm.trans hp)).symm
        subst hpe
        exact isoRound_x_odd_odd a b j y ha hb (by omega) hy
      | false =>
        have hp2 : (TileType.Isometric (2 * a) (2 * b) true false false
            ro).coord_to_pos lh (2 * j + 1) y =
            some ((a : Int) * (2 * j + 1), y * (2 * (b : Int))) := by
          unfold TileType.coord_to_pos
          dsimp only
          rw [if_pos rfl, if_neg (show ¬(false = true) by decide)]
          rw [show (2 * j + 1).tmod 2 = 1 from by
            rw [Int.tmod_eq_emod (by omega) (by norm_num)]; omega]
          rw [if_neg (show ¬(((1 : Int) == 1) = false) by decide)]
          push_cast
          rw [show ((2 : Int) * (a : Int) * (2 * j + 1)).tdiv 2 =
              (a : Int) * (2 * j + 1) from by
            rw [show (2 : Int) * (a : Int) * (2 * j + 1) =
              2 * ((a : Int) * (2 * j + 1)) from by ring]
            exact Int.mul_tdiv_cancel_left _ (by norm_num)]
        have hpe : p = ((a : Int) * (2 * j + 1), y * (2 * (b : Int))) :=
          (Option.some.inj (hp2.symm.trans hp)).symm
        subst hpe
        exact isoRound_x_even_odd a b j y ha hb (by omega) hy

/-- min_by_key of three candidates returns the first when its key is
minimal. -/
theorem minByKey3_first {α : Type} (f : α → Int) (c1 c2 c3 : α)
    (v1 v2 v3 : Int) (h1 : f c1 = v1) (h2 : f c2 = v2) (h3 : f c3 = v3)
    (h21 : ¬ v2 < v1) (h31 : ¬ v3 < v1) :
    minByKey f [c1, c2, c3] = some c1 := by
  simp only [minByKey, List.foldl_cons, List.foldl_nil]
  rw [h1, h2, if_neg h21]
  dsimp only
  rw [h3, h1, if_neg h31]

/-- min_by_key of three candidates returns the second when its key beats
the first and the third does not beat it. -/
theorem minByKey3_second {α : Type} (f : α → Int) (c1 c2 c3 : α)
    (v1 v2 v3 : Int) (h1 : f c1 = v1) (h2 : f c2 = v2) (h3 : f c3 = v3)
    (h21 : v2 < v1) (h32 : ¬ v3 < v2) :
    minByKey f [c1, c2, c3] = some c2 := by
  simp only [minByKey, List.foldl_cons, List.foldl_nil]
  rw [h1, h2, if_pos h21]
  dsimp only
  rw [h3, h2, if_neg h32]

/-- Hex roundtrip core: stagger_y, odd staggering, even row, wide side -/
theorem hexRound_y_odd_even_far (a s t : Nat) (x k : Int) (hs : 3 ≤ s)
    (ha : 1 ≤ a) (ht : 1 ≤ t) (hx : 0 ≤ x) (hk : 0 ≤ k) :
    TileType.hexStagInv (2 * a) (s + 2 * t) true true s
      (x * (2 * (a : Int)) + a)
      (((s : Int) + t - 1) * (2 * k) + ((s : Int) + 2 * t) / 2) =
      some (x, 2 * k) := by
  have haI : (1 : Int) ≤ (a : Int) := by exact_mod_cast ha
  have htI : (1 : Int) ≤ (t : Int) := by exact_mod_cast ht
  have hsI : (3 : Int) ≤ (s : Int) := by exact_mod_cast hs
  have hHH : ((s : Int) + 2 * t) / 2 < (s : Int) + t - 1 := by omega
  have hHH0 : (0 : Int) ≤ ((s : Int) + 2 * t) / 2 := by positivity
  unfold TileType.hexStagInv
  dsimp only
  simp only [eq_self_iff_true, if_true]
  push_cast
  rw [show ((s : Int) + 2 * t - s).tdiv 2 + s - 1 = (s : Int) + t - 1
      from by
        rw [show (s : Int) + 2 * t - s = 2 * (t : Int) from by ring,
          Int.mul_tdiv_cancel_left _ (by norm_num)]
        ring,
    show ((2 : Int) * (a : Int)).tdiv 2 = (a : Int) from
      Int.mul_tdiv_cancel_left _ (by norm_num),
    show ((s : Int) + 2 * t).tdiv 2 = ((s : Int) + 2 * t) / 2 from
      Int.tdiv_eq_ediv (by positivity) (by norm_num)]
  rw [show ((s : Int) + t - 1) * (2 * k) + ((s : Int) + 2 * t) / 2 = (2 * k) * ((s : Int) + t - 1) + (((s : Int) + 2 * t) / 2) from by ring]
  refine bind_eq_some_of
    (div2_mul_add (x) ((a : Int)) ((2 * (a : Int))) (by omega) (by omega)
      (by positivity) (by omega)) ?_
  dsimp only
  refine bind_eq_some_of
    (div2_mul_add (2 * k) (((s : Int) + 2 * t) / 2) (((s : Int) + t - 1)) (by omega) (by omega)
      (by positivity) (by omega)) ?_
  dsimp only
  rw [show (x) * ((2 * (a : Int))) + ((a : Int)) - (x) * ((2 * (a : Int))) = ((a : Int)) from by ring,
    show (2 * k) * (((s : Int) + t - 1)) + (((s : Int) + 2 * t) / 2) - (2 * k) * (((s : Int) + t - 1)) = (((s : Int) + 2 * t) / 2) from by ring]
  refine bind_eq_some_of
    (show mod2 (2 * k) 2 = some 0 from by
      rw [mod2_eq_some _ _ (by norm_num),
        show (2 * k).tmod 2 = 0 from by
          rw [Int.tmod_eq_emod (by omega) (by norm_num)]; omega]
      norm_num) ?_
  dsimp only
  rw [if_neg (show ¬(((0 : Int) == 1) = true) by decide)]
  refine bind_eq_some_of rfl ?_
  dsimp only
  refine bind_eq_some_of
    (minByKey3_first _ _ _ _ (0)
      ((a : Int) * a + ((s : Int) + t - 1) * ((s : Int) + t - 1))
      ((a : Int) * a + ((s : Int) + t - 1) * ((s : Int) + t - 1))
      (by dsimp only; ring) (by dsimp only; ring)
      (by dsimp only; ring)
      (by rw [not_lt]
          exact add_nonneg (mul_self_nonneg _) (mul_self_nonneg _))
      (by rw [not_lt]
          exact add_nonneg (mul_self_nonneg _) (mul_self_nonneg _))) ?_
  dsimp only
  rfl

/-- Hex roundtrip core: stagger_y, odd staggering, even row, narrow side -/
theorem hexRound_y_odd_even_near (a s t : Nat) (x k : Int) (hs1 : 1 ≤ s) (hs2 : s ≤ 2)
    (ha : 1 ≤ a) (ht : 1 ≤ t) (hx : 0 ≤ x) (hk : 0 ≤ k) :
    TileType.hexStagInv (2 * a) (s + 2 * t) true true s
      (x * (2 * (a : Int)) + a)
      (((s : Int) + t - 1) * (2 * k) + ((s : Int) + 2 * t) / 2) =
      some (x, 2 * k) := by
  have haI : (1 : Int) ≤ (a : Int) := by exact_mod_cast ha
  have htI : (1 : Int) ≤ (t : Int) := by exact_mod_cast ht
  have hsI : (1 : Int) ≤ (s : Int) := by exact_mod_cast hs1
  unfold TileType.hexStagInv
  dsimp only
  simp only [eq_self_iff_true, if_true]
  push_cast
  rw [show ((s : Int) + 2 * t - s).tdiv 2 + s - 1 = (s : Int) + t - 1
      from by
        rw [show (s : Int) + 2 * t - s = 2 * (t : Int) from by ring,
          Int.mul_tdiv_cancel_left _ (by norm_num)]
        ring,
    show ((2 : Int) * (a : Int)).tdiv 2 = (a : Int) from
      Int.mul_tdiv_cancel_left _ (by norm_num),
    show ((s : Int) + 2 * t).tdiv 2 = ((s : Int) + 2 * t) / 2 from
      Int.tdiv_eq_ediv (by positivity) (by norm_num)]
  rw [show ((s : Int) + 2 * t) / 2 = (s : Int) + t - 1 from by omega]
  rw [show ((s : Int) + t - 1) * (2 * k) + ((s : Int) + t - 1) = (2 * k + 1) * ((s : Int) + t - 1) + 0 from by ring]
  refine bind_eq_some_of
    (div2_mul_add (x) ((a : Int)) ((2 * (a : Int))) (by omega) (by omega)
      (by positivity) (by omega)) ?_
  dsimp only
  refine bind_eq_some_of
    (div2_mul_add (2 * k + 1) (0) (((s : Int) + t - 1)) (by omega) (by omega)
      (by positivity) (by omega)) ?_
  dsimp only
  rw [show (x) * ((2 * (a : Int))) + ((a : Int)) - (x) * ((2 * (a : Int))) = ((a : Int)) from by ring,
    show (2 * k + 1) * (((s : Int) + t - 1)) + (0) - (2 * k + 1) * (((s : Int) + t - 1)) = (0) from by ring]
  refine bind_eq_some_of
    (show mod2 (2 * k + 1) 2 = some 1 from by
      rw [mod2_eq_some _ _ (by norm_num),
        show (2 * k + 1).tmod 2 = 1 from by
          rw [Int.tmod_eq_emod (by omega) (by norm_num)]; omega]
      norm_num) ?_
  dsimp only
  rw [if_pos (show ((1 : Int) == 1) = true by decide)]
  refine bind_eq_some_of rfl ?_
  dsimp only
  refine bind_eq_some_of
    (minByKey3_first _ _ _ _ (0)
      ((a : Int) * a + ((s : Int) + t - 1) * ((s : Int) + t - 1))
      ((a : Int) * a + ((s : Int) + t - 1) * ((s : Int) + t - 1))
      (by dsimp only; ring) (by dsimp only; ring)
      (by dsimp only; ring)
      (by rw [not_lt]
          exact add_nonneg (mul_self_nonneg _) (mul_self_nonneg _))
      (by rw [not_lt]
          exact add_nonneg (mul_self_nonneg _) (mul_self_nonneg _))) ?_
  dsimp only
  rw [show 2 * k + 1 - 1 = 2 * k from by ring]
  rfl

/-- Hex roundtrip core: stagger_y, odd staggering, odd row, wide side -/
theorem hexRound_y_odd_odd_far (a s t : Nat) (x k : Int) (hs : 3 ≤ s)
    (ha : 1 ≤ a) (ht : 1 ≤ t) (hx : 0 ≤ x) (hk : 0 ≤ k) :
    TileType.hexStagInv (2 * a) (s + 2 * t) true true s
      (x * (2 * (a : Int)) + a + a)
      (((s : Int) + t - 1) * (2 * k + 1) + ((s : Int) + 2 * t) / 2) =
      some (x, 2 * k + 1) := by
  have haI : (1 : Int) ≤ (a : Int) := by exact_mod_cast ha
  have htI : (1 : Int) ≤ (t : Int) := by exact_mod_cast ht
  have hsI : (3 : Int) ≤ (s : Int) := by exact_mod_cast hs
  have hHH : ((s : Int) + 2 * t) / 2 < (s : Int) + t - 1 := by omega
  have hHH0 : (0 : Int) ≤ ((s : Int) + 2 * t) / 2 := by positivity
  unfold TileType.hexStagInv
  dsimp only
  simp only [eq_self_iff_true, if_true]
  push_cast
  rw [show ((s : Int) + 2 * t - s).tdiv 2 + s - 1 = (s : Int) + t - 1
      from by
        rw [show (s : Int) + 2 * t - s = 2 * (t : Int) from by ring,
          Int.mul_tdiv_cancel_left _ (by norm_num)]
        ring,
    show ((2 : Int) * (a : Int)).tdiv 2 = (a : Int) from
      Int.mul_tdiv_cancel_left _ (by norm_num),
    show ((s : Int) + 2 * t).tdiv 2 = ((s : Int) + 2 * t) / 2 from
      Int.tdiv_eq_ediv (by positivity) (by norm_num)]
  rw [show x * (2 * (a : Int)) + a + a = (x + 1) * (2 * (a : Int)) + 0 from by ring,
    show ((s : Int) + t - 1) * (2 * k + 1) + ((s : Int) + 2 * t) / 2 = (2 * k + 1) * ((s : Int) + t - 1) + (((s : Int) + 2 * t) / 2) from by ring]
  refine bind_eq_some_of
    (div2_mul_add (x + 1) (0) ((2 * (a : Int))) (by omega) (by omega)
      (by positivity) (by omega)) ?_
  dsimp only
  refine bind_eq_some_of
    (div2_mul_add (2 * k + 1) (((s : Int) + 2 * t) / 2) (((s : Int) + t - 1)) (by omega) (by omega)
      (by positivity) (by omega)) ?_
  dsimp only
  rw [show (x + 1) * ((2 * (a : Int))) + (0) - (x + 1) * ((2 * (a : Int))) = (0) from by ring,
    show (2 * k + 1) * (((s : Int) + t - 1)) + (((s : Int) + 2 * t) / 2) - (2 * k + 1) * (((s : Int) + t - 1)) = (((s : Int) + 2 * t) / 2) from by ring]
  refine bind_eq_some_of
    (show mod2 (2 * k + 1) 2 = some 1 from by
      rw [mod2_eq_some _ _ (by norm_num),
        show (2 * k + 1).tmod 2 = 1 from by
          rw [Int.tmod_eq_emod (by omega) (by norm_num)]; omega]
      norm_num) ?_
  dsimp only
  rw [if_pos (show ((1 : Int) == 1) = true by decide)]
  refine bind_eq_some_of rfl ?_
  dsimp only
  refine bind_eq_some_of
    (minByKey3_second _ _ _ _ ((a : Int) * a + ((s : Int) + t - 1) * ((s : Int) + t - 1))
      (0)
      ((2 * (a : Int)) * (2 * (a : Int)))
      (by dsimp only; ring) (by dsimp only; ring)
      (by dsimp only; ring)
      (add_pos_of_pos_of_nonneg
        (mul_pos (show (0 : Int) < (a : Int) by omega)
          (show (0 : Int) < (a : Int) by omega))
        (mul_self_nonneg _))
      (by rw [not_lt]
          exact mul_self_nonneg _)) ?_
  dsimp only
  rw [show x + 1 - 1 = x from by ring]
  rfl

/-- Hex roundtrip core: stagger_y, odd staggering, odd row, narrow side -/
theorem hexRound_y_odd_odd_near (a s t : Nat) (x k : Int) (hs1 : 1 ≤ s) (hs2 : s ≤ 2)
    (ha : 1 ≤ a) (ht : 1 ≤ t) (hx : 0 ≤ x) (hk : 0 ≤ k) :
    TileType.hexStagInv (2 * a) (s + 2 * t) true true s
      (x * (2 * (a : Int)) + a + a)
      (((s : Int) + t - 1) * (2 * k + 1) + ((s : Int) + 2 * t) / 2) =
      some (x, 2 * k + 1) := by
  have haI : (1 : Int) ≤ (a : Int) := by exact_mod_cast ha
  have htI : (1 : Int) ≤ (t : Int) := by exact_mod_cast ht
  have hsI : (1 : Int) ≤ (s : Int) := by exact_mod_cast hs1
  unfold TileType.hexStagInv
  dsimp only
  simp only [eq_self_iff_true, if_true]
  push_cast
  rw [show ((s : Int) + 2 * t - s).tdiv 2 + s - 1 = (s : Int) + t - 1
      from by
        rw [show (s : Int) + 2 * t - s = 2 * (t : Int) from by ring,
          Int.mul_tdiv_cancel_left _ (by norm_num)]
        ring,
    show ((2 : Int) * (a : Int)).tdiv 2 = (a : Int) from
      Int.mul_tdiv_cancel_left _ (by norm_num),
    show ((s : Int) + 2 * t).tdiv 2 = ((s : Int) + 2 * t) / 2 from
      Int.tdiv_eq_ediv (by positivity) (by norm_num)]
  rw [show ((s : Int) + 2 * t) / 2 = (s : Int) + t - 1 from by omega]
  rw [show x * (2 * (a : Int)) + a + a = (x + 1) * (2 * (a : Int)) + 0 from by ring,
    show ((s : Int) + t - 1) * (2 * k + 1) + ((s : Int) + t - 1) = (2 * k + 2) * ((s : Int) + t - 1) + 0 from by ring]
  refine bind_eq_some_of
    (div2_mul_add (x + 1) (0) ((2 * (a : Int))) (by omega) (by omega)
      (by positivity) (by omega)) ?_
  dsimp only
  refine bind_eq_some_of
    (div2_mul_add (2 * k + 2) (0) (((s : Int) + t - 1)) (by omega) (by omega)
      (by positivity) (by omega)) ?_
  dsimp only
  rw [show (x + 1) * ((2 * (a : Int))) + (0) - (x + 1) * ((2 * (a : Int))) = (0) from by ring,
    show (2 * k + 2) * (((s : Int) + t - 1)) + (0) - (2 * k + 2) * (((s : Int) + t - 1)) = (0) from by ring]
  refine bind_eq_some_of
    (show mod2 (2 * k + 2) 2 = some 0 from by
      rw [mod2_eq_some _ _ (by norm_num),
        show (2 * k + 2).tmod 2 = 0 from by
          rw [Int.tmod_eq_emod (by omega) (by norm_num)]; omega]
      norm_num) ?_
  dsimp only
  rw [if_neg (show ¬(((0 : Int) == 1) = true) by decide)]
  refine bind_eq_some_of rfl ?_
  dsimp only
  refine bind_eq_some_of
    (minByKey3_second _ _ _ _ ((a : Int) * a + ((s : Int) + t - 1) * ((s : Int) + t - 1))
      (0)
      ((2 * (a : Int)) * (2 * (a : Int)))
      (by dsimp only; ring) (by dsimp only; ring)
      (by dsimp only; ring)
      (add_pos_of_pos_of_nonneg
        (mul_pos (show (0 : Int) < (a : Int) by omega)
          (show (0 : Int) < (a : Int) by omega))
        (mul_self_nonneg _))
      (by rw [not_lt]
          exact mul_self_nonneg _)) ?_
  dsimp only
  rw [show x + 1 - 1 = x from by ring,
    show 2 * k + 2 - 1 = 2 * k + 1 from by ring]
  rfl

/-- Hex roundtrip core: stagger_y, even staggering, even row, wide side -/
theorem hexRound_y_even_even_far (a s t : Nat) (x k : Int) (hs : 3 ≤ s)
    (ha : 1 ≤ a) (ht : 1 ≤ t) (hx : 0 ≤ x) (hk : 0 ≤ k) :
    TileType.hexStagInv (2 * a) (s + 2 * t) false true s
      (x * (2 * (a : Int)) + a + a)
      (((s : Int) + t - 1) * (2 * k) + ((s : Int) + 2 * t) / 2) =
      some (x, 2 * k) := by
  have haI : (1 : Int) ≤ (a : Int) := by exact_mod_cast ha
  have htI : (1 : Int) ≤ (t : Int) := by exact_mod_cast ht
  have hsI : (3 : Int) ≤ (s : Int) := by exact_mod_cast hs
  have hHH : ((s : Int) + 2 * t) / 2 < (s : Int) + t - 1 := by omega
  have hHH0 : (0 : Int) ≤ ((s : Int) + 2 * t) / 2 := by positivity
  unfold TileType.hexStagInv
  dsimp only
  simp only [eq_self_iff_true, if_true]
  push_cast
  rw [show ((s : Int) + 2 * t - s).tdiv 2 + s - 1 = (s : Int) + t - 1
      from by
        rw [show (s : Int) + 2 * t - s = 2 * (t : Int) from by ring,
          Int.mul_tdiv_cancel_left _ (by norm_num)]
        ring,
    show ((2 : Int) * (a : Int)).tdiv 2 = (a : Int) from
      Int.mul_tdiv_cancel_left _ (by norm_num),
    show ((s : Int) + 2 * t).tdiv 2 = ((s : Int) + 2 * t) / 2 from
      Int.tdiv_eq_ediv (by positivity) (by norm_num)]
  rw [show x * (2 * (a : Int)) + a + a = (x + 1) * (2 * (a : Int)) + 0 from by ring,
    show ((s : Int) + t - 1) * (2 * k) + ((s : Int) + 2 * t) / 2 = (2 * k) * ((s : Int) + t - 1) + (((s : Int) + 2 * t) / 2) from by ring]
  refine bind_eq_some_of
    (div2_mul_add (x + 1) (0) ((2 * (a : Int))) (by omega) (by omega)
      (by positivity) (by omega)) ?_
  dsimp only
  refine bind_eq_some_of
    (div2_mul_add (2 * k) (((s : Int) + 2 * t) / 2) (((s : Int) + t - 1)) (by omega) (by omega)
      (by positivity) (by omega)) ?_
  dsimp only
  rw [show (x + 1) * ((2 * (a : Int))) + (0) - (x + 1) * ((2 * (a : Int))) = (0) from by ring,
    show (2 * k) * (((s : Int) + t - 1)) + (((s : Int) + 2 * t) / 2) - (2 * k) * (((s : Int) + t - 1)) = (((s : Int) + 2 * t) / 2) from by ring]
  refine bind_eq_some_of
    (show mod2 (2 * k) 2 = some 0 from by
      rw [mod2_eq_some _ _ (by norm_num),
        show (2 * k).tmod 2 = 0 from by
          rw [Int.tmod_eq_emod (by omega) (by norm_num)]; omega]
      norm_num) ?_
  dsimp only
  rw [if_pos (show ((0 : Int) == 1) = false by decide)]
  refine bind_eq_some_of rfl ?_
  dsimp only
  refine bind_eq_some_of
    (minByKey3_second _ _ _ _ ((a : Int) * a + ((s : Int) + t - 1) * ((s : Int) + t - 1))
      (0)
      ((2 * (a : Int)) * (2 * (a : Int)))
      (by dsimp only; ring) (by dsimp only; ring)
      (by dsimp only; ring)
      (add_pos_of_pos_of_nonneg
        (mul_pos (show (0 : Int) < (a : Int) by omega)
          (show (0 : Int) < (a : Int) by omega))
        (mul_self_nonneg _))
      (by rw [not_lt]
          exact mul_self_nonneg _)) ?_
  dsimp only
  rw [show x + 1 - 1 = x from by ring]
  rfl

/-- Hex roundtrip core: stagger_y, even staggering, even row, narrow side -/
theorem hexRound_y_even_even_near (a s t : Nat) (x k : Int) (hs1 : 1 ≤ s) (hs2 : s ≤ 2)
    (ha : 1 ≤ a) (ht : 1 ≤ t) (hx : 0 ≤ x) (hk : 0 ≤ k) :
    TileType.hexStagInv (2 * a) (s + 2 * t) false true s
      (x * (2 * (a : Int)) + a + a)
      (((s : Int) + t - 1) * (2 * k) + ((s : Int) + 2 * t) / 2) =
      some (x, 2 * k) := by
  have haI : (1 : Int) ≤ (a : Int) := by exact_mod_cast ha
  have htI : (1 : Int) ≤ (t : Int) := by exact_mod_cast ht
  have hsI : (1 : Int) ≤ (s : Int) := by exact_mod_cast hs1
  unfold TileType.hexStagInv
  dsimp only
  simp only [eq_self_iff_true, if_true]
  push_cast
  rw [show ((s : Int) + 2 * t - s).tdiv 2 + s - 1 = (s : Int) + t - 1
      from by
        rw [show (s : Int) + 2 * t - s = 2 * (t : Int) from by ring,
          Int.mul_tdiv_cancel_left _ (by norm_num)]
        ring,
    show ((2 : Int) * (a : Int)).tdiv 2 = (a : Int) from
      Int.mul_tdiv_cancel_left _ (by norm_num),
    show ((s : Int) + 2 * t).tdiv 2 = ((s : Int) + 2 * t) / 2 from
      Int.tdiv_eq_ediv (by positivity) (by norm_num)]
  rw [show ((s : Int) + 2 * t) / 2 = (s : Int) + t - 1 from by omega]
  rw [show x * (2 * (a : Int)) + a + a = (x + 1) * (2 * (a : Int)) + 0 from by ring,
    show ((s : Int) + t - 1) * (2 * k) + ((s : Int) + t - 1) = (2 * k + 1) * ((s : Int) + t - 1) + 0 from by ring]
  refine bind_eq_some_of
    (div2_mul_add (x + 1) (0) ((2 * (a : Int))) (by omega) (by omega)
      (by positivity) (by omega)) ?_
  dsimp only
  refine bind_eq_some_of
    (div2_mul_add (2 * k + 1) (0) (((s : Int) + t - 1)) (by omega) (by omega)
      (by positivity) (by omega)) ?_
  dsimp only
  rw [show (x + 1) * ((2 * (a : Int))) + (0) - (x + 1) * ((2 * (a : Int))) = (0) from by ring,
    show (2 * k + 1) * (((s : Int) + t - 1)) + (0) - (2 * k + 1) * (((s : Int) + t - 1)) = (0) from by ring]
  refine bind_eq_some_of
    (show mod2 (2 * k + 1) 2 = some 1 from by
      rw [mod2_eq_some _ _ (by norm_num),
        show (2 * k + 1).tmod 2 = 1 from by
          rw [Int.tmod_eq_emod (by omega) (by norm_num)]; omega]
      norm_num) ?_
  dsimp only
  rw [if_neg (show ¬(((1 : Int) == 1) = false) by decide)]
  refine bind_eq_some_of rfl ?_
  dsimp only
  refine bind_eq_some_of
    (minByKey3_second _ _ _ _ ((a : Int) * a + ((s : Int) + t - 1) * ((s : Int) + t - 1))
      (0)
      ((2 * (a : Int)) * (2 * (a : Int)))
      (by dsimp only; ring) (by dsimp only; ring)
      (by dsimp only; ring)
      (add_pos_of_pos_of_nonneg
        (mul_pos (show (0 : Int) < (a : Int) by omega)
          (show (0 : Int) < (a : Int) by omega))
        (mul_self_nonneg _))
      (by rw [not_lt]
          exact mul_self_nonneg _)) ?_
  dsimp only
  rw [show x + 1 - 1 = x from by ring,
    show 2 * k + 1 - 1 = 2 * k from by ring]
  rfl

/-- Hex roundtrip core: stagger_y, even staggering, odd row, wide side -/
theorem hexRound_y_even_odd_far (a s t : Nat) (x k : Int) (hs : 3 ≤ s)
    (ha : 1 ≤ a) (ht : 1 ≤ t) (hx : 0 ≤ x) (hk : 0 ≤ k) :
    TileType.hexStagInv (2 * a) (s + 2 * t) false true s
      (x * (2 * (a : Int)) + a)
      (((s : Int) + t - 1) * (2 * k + 1) + ((s : Int) + 2 * t) / 2) =
      some (x, 2 * k + 1) := by
  have haI : (1 : Int) ≤ (a : Int) := by exact_mod_cast ha
  have htI : (1 : Int) ≤ (t : Int) := by exact_mod_cast ht
  have hsI : (3 : Int) ≤ (s : Int) := by exact_mod_cast hs
  have hHH : ((s : Int) + 2 * t) / 2 < (s : Int) + t - 1 := by omega
  have hHH0 : (0 : Int) ≤ ((s : Int) + 2 * t) / 2 := by positivity
  unfold TileType.hexStagInv
  dsimp only
  simp only [eq_self_iff_true, if_true]
  push_cast
  rw [show ((s : Int) + 2 * t - s).tdiv 2 + s - 1 = (s : Int) + t - 1
      from by
        rw [show (s : Int) + 2 * t - s = 2 * (t : Int) from by ring,
          Int.mul_tdiv_cancel_left _ (by norm_num)]
        ring,
    show ((2 : Int) * (a : Int)).tdiv 2 = (a : Int) from
      Int.mul_tdiv_cancel_left _ (by norm_num),
    show ((s : Int) + 2 * t).tdiv 2 = ((s : Int) + 2 * t) / 2 from
      Int.tdiv_eq_ediv (by positivity) (by norm_num)]
  rw [show ((s : Int) + t - 1) * (2 * k + 1) + ((s : Int) + 2 * t) / 2 = (2 * k + 1) * ((s : Int) + t - 1) + (((s : Int) + 2 * t) / 2) from by ring]
  refine bind_eq_some_of
    (div2_mul_add (x) ((a : Int)) ((2 * (a : Int))) (by omega) (by omega)
      (by positivity) (by omega)) ?_
  dsimp only
  refine bind_eq_some_of
    (div2_mul_add (2 * k + 1) (((s : Int) + 2 * t) / 2) (((s : Int) + t - 1)) (by omega) (by omega)
      (by positivity) (by omega)) ?_
  dsimp only
  rw [show (x) * ((2 * (a : Int))) + ((a : Int)) - (x) * ((2 * (a : Int))) = ((a : Int)) from by ring,
    show (2 * k + 1) * (((s : Int) + t - 1)) + (((s : Int) + 2 * t) / 2) - (2 * k + 1) * (((s : Int) + t - 1)) = (((s : Int) + 2 * t) / 2) from by ring]
  refine bind_eq_some_of
    (show mod2 (2 * k + 1) 2 = some 1 from by
      rw [mod2_eq_some _ _ (by norm_num),
        show (2 * k + 1).tmod 2 = 1 from by
          rw [Int.tmod_eq_emod (by omega) (by norm_num)]; omega]
      norm_num) ?_
  dsimp only
  rw [if_neg (show ¬(((1 : Int) == 1) = false) by decide)]
  refine bind_eq_some_of rfl ?_
  dsimp only
  refine bind_eq_some_of
    (minByKey3_first _ _ _ _ (0)
      ((a : Int) * a + ((s : Int) + t - 1) * ((s : Int) + t - 1))
      ((a : Int) * a + ((s : Int) + t - 1) * ((s : Int) + t - 1))
      (by dsimp only; ring) (by dsimp only; ring)
      (by dsimp only; ring)
      (by rw [not_lt]
          exact add_nonneg (mul_self_nonneg _) (mul_self_nonneg _))
      (by rw [not_lt]
          exact add_nonneg (mul_self_nonneg _) (mul_self_nonneg _))) ?_
  dsimp only
  rfl

/-- Hex roundtrip core: stagger_y, even staggering, odd row, narrow side -/
theorem hexRound_y_even_odd_near (a s t : Nat) (x k : Int) (hs1 : 1 ≤ s) (hs2 : s ≤ 2)
    (ha : 1 ≤ a) (ht : 1 ≤ t) (hx : 0 ≤ x) (hk : 0 ≤ k) :
    TileType.hexStagInv (2 * a) (s + 2 * t) false true s
      (x * (2 * (a : Int)) + a)
      (((s : Int) + t - 1) * (2 * k + 1) + ((s : Int) + 2 * t) / 2) =
      some (x, 2 * k + 1) := by
  have haI : (1 : Int) ≤ (a : Int) := by exact_mod_cast ha
  have htI : (1 : Int) ≤ (t : Int) := by exact_mod_cast ht
  have hsI : (1 : Int) ≤ (s : Int) := by exact_mod_cast hs1
  unfold TileType.hexStagInv
  dsimp only
  simp only [eq_self_iff_true, if_true]
  push_cast
  rw [show ((s : Int) + 2 * t - s).tdiv 2 + s - 1 = (s : Int) + t - 1
      from by
        rw [show (s : Int) + 2 * t - s = 2 * (t : Int) from by ring,
          Int.mul_tdiv_cancel_left _ (by norm_num)]
        ring,
    show ((2 : Int) * (a : Int)).tdiv 2 = (a : Int) from
      Int.mul_tdiv_cancel_left _ (by norm_num),
    show ((s : Int) + 2 * t).tdiv 2 = ((s : Int) + 2 * t) / 2 from
      Int.tdiv_eq_ediv (by positivity) (by norm_num)]
  rw [show ((s : Int) + 2 * t) / 2 = (s : Int) + t - 1 from by omega]
  rw [show ((s : Int) + t - 1) * (2 * k + 1) + ((s : Int) + t - 1) = (2 * k + 2) * ((s : Int) + t - 1) + 0 from by ring]
  refine bind_eq_some_of
    (div2_mul_add (x) ((a : Int)) ((2 * (a : Int))) (by omega) (by omega)
      (by positivity) (by omega)) ?_
  dsimp only
  refine bind_eq_some_of
    (div2_mul_add (2 * k + 2) (0) (((s : Int) + t - 1)) (by omega) (by omega)
      (by positivity) (by omega)) ?_
  dsimp only
  rw [show (x) * ((2 * (a : Int))) + ((a : Int)) - (x) * ((2 * (a : Int))) = ((a : Int)) from by ring,
    show (2 * k + 2) * (((s : Int) + t - 1)) + (0) - (2 * k + 2) * (((s : Int) + t - 1)) = (0) from by ring]
  refine bind_eq_some_of
    (show mod2 (2 * k + 2) 2 = some 0 from by
      rw [mod2_eq_some _ _ (by norm_num),
        show (2 * k + 2).tmod 2 = 0 from by
          rw [Int.tmod_eq_emod (by omega) (by norm_num)]; omega]
      norm_num) ?_
  dsimp only
  rw [if_pos (show ((0 : Int) == 1) = false by decide)]
  refine bind_eq_some_of rfl ?_
  dsimp only
  refine bind_eq_some_of
    (minByKey3_first _ _ _ _ (0)
      ((a : Int) * a + ((s : Int) + t - 1) * ((s : Int) + t - 1))
      ((a : Int) * a + ((s : Int) + t - 1) * ((s : Int) + t - 1))
      (by dsimp only; ring) (by dsimp only; ring)
      (by dsimp only; ring)
      (by rw [not_lt]
          exact add_nonneg (mul_self_nonneg _) (mul_self_nonneg _))
      (by rw [not_lt]
          exact add_nonneg (mul_self_nonneg _) (mul_self_nonneg _))) ?_
  dsimp only
  rw [show 2 * k + 2 - 1 = 2 * k + 1 from by ring]
  rfl

/-- Hex roundtrip core: stagger_x, odd staggering, even column, wide side -/
theorem hexRound_x_odd_even_far (s t b : Nat) (j y : Int) (hs : 3 ≤ s)
    (hb : 1 ≤ b) (ht : 1 ≤ t) (hj : 0 ≤ j) (hy : 0 ≤ y) :
    TileType.hexStagInv (s + 2 * t) (2 * b) true false s
      (((s : Int) + t - 1) * (2 * j) + ((s : Int) + 2 * t) / 2)
      (y * (2 * (b : Int)) + b) =
      some (2 * j, y) := by
  have hbI : (1 : Int) ≤ (b : Int) := by exact_mod_cast hb
  have htI : (1 : Int) ≤ (t : Int) := by exact_mod_cast ht
  have hsI : (3 : Int) ≤ (s : Int) := by exact_mod_cast hs
  have hHH : ((s : Int) + 2 * t) / 2 < (s : Int) + t - 1 := by omega
  have hHH0 : (0 : Int) ≤ ((s : Int) + 2 * t) / 2 := by positivity
  unfold TileType.hexStagInv
  dsimp only
  simp only [Bool.false_eq_true, if_false]
  push_cast
  rw [show ((s : Int) + 2 * t - s).tdiv 2 + s - 1 = (s : Int) + t - 1
      from by
        rw [show (s : Int) + 2 * t - s = 2 * (t : Int) from by ring,
          Int.mul_tdiv_cancel_left _ (by norm_num)]
        ring,
    show ((s : Int) + 2 * t).tdiv 2 = ((s : Int) + 2 * t) / 2 from
      Int.tdiv_eq_ediv (by positivity) (by norm_num),
    show ((2 : Int) * (b : Int)).tdiv 2 = (b : Int) from
      Int.mul_tdiv_cancel_left _ (by norm_num)]
  rw [show ((s : Int) + t - 1) * (2 * j) + ((s : Int) + 2 * t) / 2 = (2 * j) * ((s : Int) + t - 1) + (((s : Int) + 2 * t) / 2) from by ring]
  refine bind_eq_some_of
    (div2_mul_add (2 * j) (((s : Int) + 2 * t) / 2) (((s : Int) + t - 1)) (by omega) (by omega)
      (by positivity) (by omega)) ?_
  dsimp only
  refine bind_eq_some_of
    (div2_mul_add (y) ((b : Int)) ((2 * (b : Int))) (by omega) (by omega)
      (by positivity) (by omega)) ?_
  dsimp only
  rw [show (2 * j) * (((s : Int) + t - 1)) + (((s : Int) + 2 * t) / 2) - (2 * j) * (((s : Int) + t - 1)) = (((s : Int) + 2 * t) / 2) from by ring,
    show (y) * ((2 * (b : Int))) + ((b : Int)) - (y) * ((2 * (b : Int))) = ((b : Int)) from by ring]
  refine bind_eq_some_of
    (show mod2 (2 * j) 2 = some 0 from by
      rw [mod2_eq_some _ _ (by norm_num),
        show (2 * j).tmod 2 = 0 from by
          rw [Int.tmod_eq_emod (by omega) (by norm_num)]; omega]
      norm_num) ?_
  dsimp only
  rw [if_neg (show ¬(((0 : Int) == 1) = true) by decide)]
  refine bind_eq_some_of rfl ?_
  dsimp only
  refine bind_eq_some_of
    (minByKey3_first _ _ _ _ (0)
      (((s : Int) + t - 1) * ((s : Int) + t - 1) + (b : Int) * b)
      (((s : Int) + t - 1) * ((s : Int) + t - 1) + (b : Int) * b)
      (by dsimp only; ring) (by dsimp only; ring)
      (by dsimp only; ring)
      (by rw [not_lt]
          exact add_nonneg (mul_self_nonneg _) (mul_self_nonneg _))
      (by rw [not_lt]
          exact add_nonneg (mul_self_nonneg _) (mul_self_nonneg _))) ?_
  dsimp only
  rfl

/-- Hex roundtrip core: stagger_x, odd staggering, even column, narrow side -/
theorem hexRound_x_odd_even_near (s t b : Nat) (j y : Int) (hs1 : 1 ≤ s) (hs2 : s ≤ 2)
    (hb : 1 ≤ b) (ht : 1 ≤ t) (hj : 0 ≤ j) (hy : 0 ≤ y) :
    TileType.hexStagInv (s + 2 * t) (2 * b) true false s
      (((s : Int) + t - 1) * (2 * j) + ((s : Int) + 2 * t) / 2)
      (y * (2 * (b : Int)) + b) =
      some (2 * j, y) := by
  have hbI : (1 : Int) ≤ (b : Int) := by exact_mod_cast hb
  have htI : (1 : Int) ≤ (t : Int) := by exact_mod_cast ht
  have hsI : (1 : Int) ≤ (s : Int) := by exact_mod_cast hs1
  unfold TileType.hexStagInv
  dsimp only
  simp only [Bool.false_eq_true, if_false]
  push_cast
  rw [show ((s : Int) + 2 * t - s).tdiv 2 + s - 1 = (s : Int) + t - 1
      from by
        rw [show (s : Int) + 2 * t - s = 2 * (t : Int) from by ring,
          Int.mul_tdiv_cancel_left _ (by norm_num)]
        ring,
    show ((s : Int) + 2 * t).tdiv 2 = ((s : Int) + 2 * t) / 2 from
      Int.tdiv_eq_ediv (by positivity) (by norm_num),
    show ((2 : Int) * (b : Int)).tdiv 2 = (b : Int) from
      Int.mul_tdiv_cancel_left _ (by norm_num)]
  rw [show ((s : Int) + 2 * t) / 2 = (s : Int) + t - 1 from by omega]
  rw [show ((s : Int) + t - 1) * (2 * j) + ((s : Int) + t - 1) = (2 * j + 1) * ((s : Int) + t - 1) + 0 from by ring]
  refine bind_eq_some_of
    (div2_mul_add (2 * j + 1) (0) (((s : Int) + t - 1)) (by omega) (by omega)
      (by positivity) (by omega)) ?_
  dsimp only
  refine bind_eq_some_of
    (div2_mul_add (y) ((b : Int)) ((2 * (b : Int))) (by omega) (by omega)
      (by positivity) (by omega)) ?_
  dsimp only
  rw [show (2 * j + 1) * (((s : Int) + t - 1)) + (0) - (2 * j + 1) * (((s : Int) + t - 1)) = (0) from by ring,
    show (y) * ((2 * (b : Int))) + ((b : Int)) - (y) * ((2 * (b : Int))) = ((b : Int)) from by ring]
  refine bind_eq_some_of
    (show mod2 (2 * j + 1) 2 = some 1 from by
      rw [mod2_eq_some _ _ (by norm_num),
        show (2 * j + 1).tmod 2 = 1 from by
          rw [Int.tmod_eq_emod (by omega) (by norm_num)]; omega]
      norm_num) ?_
  dsimp only
  rw [if_pos (show ((1 : Int) == 1) = true by decide)]
  refine bind_eq_some_of rfl ?_
  dsimp only
  refine bind_eq_some_of
    (minByKey3_first _ _ _ _ (0)
      (((s : Int) + t - 1) * ((s : Int) + t - 1) + (b : Int) * b)
      (((s : Int) + t - 1) * ((s : Int) + t - 1) + (b : Int) * b)
      (by dsimp only; ring) (by dsimp only; ring)
      (by dsimp only; ring)
      (by rw [not_lt]
          exact add_nonneg (mul_self_nonneg _) (mul_self_nonneg _))
      (by rw [not_lt]
          exact add_nonneg (mul_self_nonneg _) (mul_self_nonneg _))) ?_
  dsimp only
  rw [show 2 * j + 1 - 1 = 2 * j from by ring]
  rfl

/-- Hex roundtrip core: stagger_x, odd staggering, odd column, wide side -/
theorem hexRound_x_odd_odd_far (s t b : Nat) (j y : Int) (hs : 3 ≤ s)
    (hb : 1 ≤ b) (ht : 1 ≤ t) (hj : 0 ≤ j) (hy : 0 ≤ y) :
    TileType.hexStagInv (s + 2 * t) (2 * b) true false s
      (((s : Int) + t - 1) * (2 * j + 1) + ((s : Int) + 2 * t) / 2)
      (y * (2 * (b : Int)) + b + b) =
      some (2 * j + 1, y) := by
  have hbI : (1 : Int) ≤ (b : Int) := by exact_mod_cast hb
  have htI : (1 : Int) ≤ (t : Int) := by exact_mod_cast ht
  have hsI : (3 : Int) ≤ (s : Int) := by exact_mod_cast hs
  have hHH : ((s : Int) + 2 * t) / 2 < (s : Int) + t - 1 := by omega
  have hHH0 : (0 : Int) ≤ ((s : Int) + 2 * t) / 2 := by positivity
  unfold TileType.hexStagInv
  dsimp only
  simp only [Bool.false_eq_true, if_false]
  push_cast
  rw [show ((s : Int) + 2 * t - s).tdiv 2 + s - 1 = (s : Int) + t - 1
      from by
        rw [show (s : Int) + 2 * t - s = 2 * (t : Int) from by ring,
          Int.mul_tdiv_cancel_left _ (by norm_num)]
        ring,
    show ((s : Int) + 2 * t).tdiv 2 = ((s : Int) + 2 * t) / 2 from
      Int.tdiv_eq_ediv (by positivity) (by norm_num),
    show ((2 : Int) * (b : Int)).tdiv 2 = (b : Int) from
      Int.mul_tdiv_cancel_left _ (by norm_num)]
  rw [show ((s : Int) + t - 1) * (2 * j + 1) + ((s : Int) + 2 * t) / 2 = (2 * j + 1) * ((s : Int) + t - 1) + (((s : Int) + 2 * t) / 2) from by ring,
    show y * (2 * (b : Int)) + b + b = (y + 1) * (2 * (b : Int)) + 0 from by ring]
  refine bind_eq_some_of
    (div2_mul_add (2 * j + 1) (((s : Int) + 2 * t) / 2) (((s : Int) + t - 1)) (by omega) (by omega)
      (by positivity) (by omega)) ?_
  dsimp only
  refine bind_eq_some_of
    (div2_mul_add (y + 1) (0) ((2 * (b : Int))) (by omega) (by omega)
      (by positivity) (by omega)) ?_
  dsimp only
  rw [show (2 * j + 1) * (((s : Int) + t - 1)) + (((s : Int) + 2 * t) / 2) - (2 * j + 1) * (((s : Int) + t - 1)) = (((s : Int) + 2 * t) / 2) from by ring,
    show (y + 1) * ((2 * (b : Int))) + (0) - (y + 1) * ((2 * (b : Int))) = (0) from by ring]
  refine bind_eq_some_of
    (show mod2 (2 * j + 1) 2 = some 1 from by
      rw [mod2_eq_some _ _ (by norm_num),
        show (2 * j + 1).tmod 2 = 1 from by
          rw [Int.tmod_eq_emod (by omega) (by norm_num)]; omega]
      norm_num) ?_
  dsimp only
  rw [if_pos (show ((1 : Int) == 1) = true by decide)]
  refine bind_eq_some_of rfl ?_
  dsimp only
  refine bind_eq_some_of
    (minByKey3_second _ _ _ _ (((s : Int) + t - 1) * ((s : Int) + t - 1) + (b : Int) * b)
      (0)
      ((2 * (b : Int)) * (2 * (b : Int)))
      (by dsimp only; ring) (by dsimp only; ring)
      (by dsimp only; ring)
      (add_pos_of_pos_of_nonneg
        (mul_pos (show (0 : Int) < ((s : Int) + t - 1) by omega)
          (show (0 : Int) < ((s : Int) + t - 1) by omega))
        (mul_self_nonneg _))
      (by rw [not_lt]
          exact mul_self_nonneg _)) ?_
  dsimp only
  rw [show y + 1 - 1 = y from by ring]
  rfl

/-- Hex roundtrip core: stagger_x, odd staggering, odd column, narrow side -/
theorem hexRound_x_odd_odd_near (s t b : Nat) (j y : Int) (hs1 : 1 ≤ s) (hs2 : s ≤ 2)
    (hb : 1 ≤ b) (ht : 1 ≤ t) (hj : 0 ≤ j) (hy : 0 ≤ y) :
    TileType.hexStagInv (s + 2 * t) (2 * b) true false s
      (((s : Int) + t - 1) * (2 * j + 1) + ((s : Int) + 2 * t) / 2)
      (y * (2 * (b : Int)) + b + b) =
      some (2 * j + 1, y) := by
  have hbI : (1 : Int) ≤ (b : Int) := by exact_mod_cast hb
  have htI : (1 : Int) ≤ (t : Int) := by exact_mod_cast ht
  have hsI : (1 : Int) ≤ (s : Int) := by exact_mod_cast hs1
  unfold TileType.hexStagInv
  dsimp only
  simp only [Bool.false_eq_true, if_false]
  push_cast
  rw [show ((s : Int) + 2 * t - s).tdiv 2 + s - 1 = (s : Int) + t - 1
      from by
        rw [show (s : Int) + 2 * t - s = 2 * (t : Int) from by ring,
          Int.mul_tdiv_cancel_left _ (by norm_num)]
        ring,
    show ((s : Int) + 2 * t).tdiv 2 = ((s : Int) + 2 * t) / 2 from
      Int.tdiv_eq_ediv (by positivity) (by norm_num),
    show ((2 : Int) * (b : Int)).tdiv 2 = (b : Int) from
      Int.mul_tdiv_cancel_left _ (by norm_num)]
  rw [show ((s : Int) + 2 * t) / 2 = (s : Int) + t - 1 from by omega]
  rw [show ((s : Int) + t - 1) * (2 * j + 1) + ((s : Int) + t - 1) = (2 * j + 2) * ((s : Int) + t - 1) + 0 from by ring,
    show y * (2 * (b : Int)) + b + b = (y + 1) * (2 * (b : Int)) + 0 from by ring]
  refine bind_eq_some_of
    (div2_mul_add (2 * j + 2) (0) (((s : Int) + t - 1)) (by omega) (by omega)
      (by positivity) (by omega)) ?_
  dsimp only
  refine bind_eq_some_of
    (div2_mul_add (y + 1) (0) ((2 * (b : Int))) (by omega) (by omega)
      (by positivity) (by omega)) ?_
  dsimp only
  rw [show (2 * j + 2) * (((s : Int) + t - 1)) + (0) - (2 * j + 2) * (((s : Int) + t - 1)) = (0) from by ring,
    show (y + 1) * ((2 * (b : Int))) + (0) - (y + 1) * ((2 * (b : Int))) = (0) from by ring]
  refine bind_eq_some_of
    (show mod2 (2 * j + 2) 2 = some 0 from by
      rw [mod2_eq_some _ _ (by norm_num),
        show (2 * j + 2).tmod 2 = 0 from by
          rw [Int.tmod_eq_emod (by omega) (by norm_num)]; omega]
      norm_num) ?_
  dsimp only
  rw [if_neg (show ¬(((0 : Int) == 1) = true) by decide)]
  refine bind_eq_some_of rfl ?_
  dsimp only
  refine bind_eq_some_of
    (minByKey3_second _ _ _ _ (((s : Int) + t - 1) * ((s : Int) + t - 1) + (b : Int) * b)
      (0)
      ((2 * (b : Int)) * (2 * (b : Int)))
      (by dsimp only; ring) (by dsimp only; ring)
      (by dsimp only; ring)
      (add_pos_of_pos_of_nonneg
        (mul_pos (show (0 : Int) < ((s : Int) + t - 1) by omega)
          (show (0 : Int) < ((s : Int) + t - 1) by omega))
        (mul_self_nonneg _))
      (by rw [not_lt]
          exact mul_self_nonneg _)) ?_
  dsimp only
  rw [show 2 * j + 2 - 1 = 2 * j + 1 from by ring,
    show y + 1 - 1 = y from by ring]
  rfl

/-- Hex roundtrip core: stagger_x, even staggering, even column, wide side -/
theorem hexRound_x_even_even_far (s t b : Nat) (j y : Int) (hs : 3 ≤ s)
    (hb : 1 ≤ b) (ht : 1 ≤ t) (hj : 0 ≤ j) (hy : 0 ≤ y) :
    TileType.hexStagInv (s + 2 * t) (2 * b) false false s
      (((s : Int) + t - 1) * (2 * j) + ((s : Int) + 2 * t) / 2)
      (y * (2 * (b : Int)) + b + b) =
      some (2 * j, y) := by
  have hbI : (1 : Int) ≤ (b : Int) := by exact_mod_cast hb
  have htI : (1 : Int) ≤ (t : Int) := by exact_mod_cast ht
  have hsI : (3 : Int) ≤ (s : Int) := by exact_mod_cast hs
  have hHH : ((s : Int) + 2 * t) / 2 < (s : Int) + t - 1 := by omega
  have hHH0 : (0 : Int) ≤ ((s : Int) + 2 * t) / 2 := by positivity
  unfold TileType.hexStagInv
  dsimp only
  simp only [Bool.false_eq_true, if_false]
  push_cast
  rw [show ((s : Int) + 2 * t - s).tdiv 2 + s - 1 = (s : Int) + t - 1
      from by
        rw [show (s : Int) + 2 * t - s = 2 * (t : Int) from by ring,
          Int.mul_tdiv_cancel_left _ (by norm_num)]
        ring,
    show ((s : Int) + 2 * t).tdiv 2 = ((s : Int) + 2 * t) / 2 from
      Int.tdiv_eq_ediv (by positivity) (by norm_num),
    show ((2 : Int) * (b : Int)).tdiv 2 = (b : Int) from
      Int.mul_tdiv_cancel_left _ (by norm_num)]
  rw [show ((s : Int) + t - 1) * (2 * j) + ((s : Int) + 2 * t) / 2 = (2 * j) * ((s : Int) + t - 1) + (((s : Int) + 2 * t) / 2) from by ring,
    show y * (2 * (b : Int)) + b + b = (y + 1) * (2 * (b : Int)) + 0 from by ring]
  refine bind_eq_some_of
    (div2_mul_add (2 * j) (((s : Int) + 2 * t) / 2) (((s : Int) + t - 1)) (by omega) (by omega)
      (by positivity) (by omega)) ?_
  dsimp only
  refine bind_eq_some_of
    (div2_mul_add (y + 1) (0) ((2 * (b : Int))) (by omega) (by omega)
      (by positivity) (by omega)) ?_
  dsimp only
  rw [show (2 * j) * (((s : Int) + t - 1)) + (((s : Int) + 2 * t) / 2) - (2 * j) * (((s : Int) + t - 1)) = (((s : Int) + 2 * t) / 2) from by ring,
    show (y + 1) * ((2 * (b : Int))) + (0) - (y + 1) * ((2 * (b : Int))) = (0) from by ring]
  refine bind_eq_some_of
    (show mod2 (2 * j) 2 = some 0 from by
      rw [mod2_eq_some _ _ (by norm_num),
        show (2 * j).tmod 2 = 0 from by
          rw [Int.tmod_eq_emod (by omega) (by norm_num)]; omega]
      norm_num) ?_
  dsimp only
  rw [if_pos (show ((0 : Int) == 1) = false by decide)]
  refine bind_eq_some_of rfl ?_
  dsimp only
  refine bind_eq_some_of
    (minByKey3_second _ _ _ _ (((s : Int) + t - 1) * ((s : Int) + t - 1) + (b : Int) * b)
      (0)
      ((2 * (b : Int)) * (2 * (b : Int)))
      (by dsimp only; ring) (by dsimp only; ring)
      (by dsimp only; ring)
      (add_pos_of_pos_of_nonneg
        (mul_pos (show (0 : Int) < ((s : Int) + t - 1) by omega)
          (show (0 : Int) < ((s : Int) + t - 1) by omega))
        (mul_self_nonneg _))
      (by rw [not_lt]
          exact mul_self_nonneg _)) ?_
  dsimp only
  rw [show y + 1 - 1 = y from by ring]
  rfl

/-- Hex roundtrip core: stagger_x, even staggering, even column, narrow side -/
theorem hexRound_x_even_even_near (s t b : Nat) (j y : Int) (hs1 : 1 ≤ s) (hs2 : s ≤ 2)
    (hb : 1 ≤ b) (ht : 1 ≤ t) (hj : 0 ≤ j) (hy : 0 ≤ y) :
    TileType.hexStagInv (s + 2 * t) (2 * b) false false s
      (((s : Int) + t - 1) * (2 * j) + ((s : Int) + 2 * t) / 2)
      (y * (2 * (b : Int)) + b + b) =
      some (2 * j, y) := by
  have hbI : (1 : Int) ≤ (b : Int) := by exact_mod_cast hb
  have htI : (1 : Int) ≤ (t : Int) := by exact_mod_cast ht
  have hsI : (1 : Int) ≤ (s : Int) := by exact_mod_cast hs1
  unfold TileType.hexStagInv
  dsimp only
  simp only [Bool.false_eq_true, if_false]
  push_cast
  rw [show ((s : Int) + 2 * t - s).tdiv 2 + s - 1 = (s : Int) + t - 1
      from by
        rw [show (s : Int) + 2 * t - s = 2 * (t : Int) from by ring,
          Int.mul_tdiv_cancel_left _ (by norm_num)]
        ring,
    show ((s : Int) + 2 * t).tdiv 2 = ((s : Int) + 2 * t) / 2 from
      Int.tdiv_eq_ediv (by positivity) (by norm_num),
    show ((2 : Int) * (b : Int)).tdiv 2 = (b : Int) from
      Int.mul_tdiv_cancel_left _ (by norm_num)]
  rw [show ((s : Int) + 2 * t) / 2 = (s : Int) + t - 1 from by omega]
  rw [show ((s : Int) + t - 1) * (2 * j) + ((s : Int) + t - 1) = (2 * j + 1) * ((s : Int) + t - 1) + 0 from by ring,
    show y * (2 * (b : Int)) + b + b = (y + 1) * (2 * (b : Int)) + 0 from by ring]
  refine bind_eq_some_of
    (div2_mul_add (2 * j + 1) (0) (((s : Int) + t - 1)) (by omega) (by omega)
      (by positivity) (by omega)) ?_
  dsimp only
  refine bind_eq_some_of
    (div2_mul_add (y + 1) (0) ((2 * (b : Int))) (by omega) (by omega)
      (by positivity) (by omega)) ?_
  dsimp only
  rw [show (2 * j + 1) * (((s : Int) + t - 1)) + (0) - (2 * j + 1) * (((s : Int) + t - 1)) = (0) from by ring,
    show (y + 1) * ((2 * (b : Int))) + (0) - (y + 1) * ((2 * (b : Int))) = (0) from by ring]
  refine bind_eq_some_of
    (show mod2 (2 * j + 1) 2 = some 1 from by
      rw [mod2_eq_some _ _ (by norm_num),
        show (2 * j + 1).tmod 2 = 1 from by
          rw [Int.tmod_eq_emod (by omega) (by norm_num)]; omega]
      norm_num) ?_
  dsimp only
  rw [if_neg (show ¬(((1 : Int) == 1) = false) by decide)]
  refine bind_eq_some_of rfl ?_
  dsimp only
  refine bind_eq_some_of
    (minByKey3_second _ _ _ _ (((s : Int) + t - 1) * ((s : Int) + t - 1) + (b : Int) * b)
      (0)
      ((2 * (b : Int)) * (2 * (b : Int)))
      (by dsimp only; ring) (by dsimp only; ring)
      (by dsimp only; ring)
      (add_pos_of_pos_of_nonneg
        (mul_pos (show (0 : Int) < ((s : Int) + t - 1) by omega)
          (show (0 : Int) < ((s : Int) + t - 1) by omega))
        (mul_self_nonneg _))
      (by rw [not_lt]
          exact mul_self_nonneg _)) ?_
  dsimp only
  rw [show 2 * j + 1 - 1 = 2 * j from by ring,
    show y + 1 - 1 = y from by ring]
  rfl

/-- Hex roundtrip core: stagger_x, even staggering, odd column, wide side -/
theorem hexRound_x_even_odd_far (s t b : Nat) (j y : Int) (hs : 3 ≤ s)
    (hb : 1 ≤ b) (ht : 1 ≤ t) (hj : 0 ≤ j) (hy : 0 ≤ y) :
    TileType.hexStagInv (s + 2 * t) (2 * b) false false s
      (((s : Int) + t - 1) * (2 * j + 1) + ((s : Int) + 2 * t) / 2)
      (y * (2 * (b : Int)) + b) =
      some (2 * j + 1, y) := by
  have hbI : (1 : Int) ≤ (b : Int) := by exact_mod_cast hb
  have htI : (1 : Int) ≤ (t : Int) := by exact_mod_cast ht
  have hsI : (3 : Int) ≤ (s : Int) := by exact_mod_cast hs
  have hHH : ((s : Int) + 2 * t) / 2 < (s : Int) + t - 1 := by omega
  have hHH0 : (0 : Int) ≤ ((s : Int) + 2 * t) / 2 := by positivity
  unfold TileType.hexStagInv
  dsimp only
  simp only [Bool.false_eq_true, if_false]
  push_cast
  rw [show ((s : Int) + 2 * t - s).tdiv 2 + s - 1 = (s : Int) + t - 1
      from by
        rw [show (s : Int) + 2 * t - s = 2 * (t : Int) from by ring,
          Int.mul_tdiv_cancel_left _ (by norm_num)]
        ring,
    show ((s : Int) + 2 * t).tdiv 2 = ((s : Int) + 2 * t) / 2 from
      Int.tdiv_eq_ediv (by positivity) (by norm_num),
    show ((2 : Int) * (b : Int)).tdiv 2 = (b : Int) from
      Int.mul_tdiv_cancel_left _ (by norm_num)]
  rw [show ((s : Int) + t - 1) * (2 * j + 1) + ((s : Int) + 2 * t) / 2 = (2 * j + 1) * ((s : Int) + t - 1) + (((s : Int) + 2 * t) / 2) from by ring]
  refine bind_eq_some_of
    (div2_mul_add (2 * j + 1) (((s : Int) + 2 * t) / 2) (((s : Int) + t - 1)) (by omega) (by omega)
      (by positivity) (by omega)) ?_
  dsimp only
  refine bind_eq_some_of
    (div2_mul_add (y) ((b : Int)) ((2 * (b : Int))) (by omega) (by omega)
      (by positivity) (by omega)) ?_
  dsimp only
  rw [show (2 * j + 1) * (((s : Int) + t - 1)) + (((s : Int) + 2 * t) / 2) - (2 * j + 1) * (((s : Int) + t - 1)) = (((s : Int) + 2 * t) / 2) from by ring,
    show (y) * ((2 * (b : Int))) + ((b : Int)) - (y) * ((2 * (b : Int))) = ((b : Int)) from by ring]
  refine bind_eq_some_of
    (show mod2 (2 * j + 1) 2 = some 1 from by
      rw [mod2_eq_some _ _ (by norm_num),
        show (2 * j + 1).tmod 2 = 1 from by
          rw [Int.tmod_eq_emod (by omega) (by norm_num)]; omega]
      norm_num) ?_
  dsimp only
  rw [if_neg (show ¬(((1 : Int) == 1) = false) by decide)]
  refine bind_eq_some_of rfl ?_
  dsimp only
  refine bind_eq_some_of
    (minByKey3_first _ _ _ _ (0)
      (((s : Int) + t - 1) * ((s : Int) + t - 1) + (b : Int) * b)
      (((s : Int) + t - 1) * ((s : Int) + t - 1) + (b : Int) * b)
      (by dsimp only; ring) (by dsimp only; ring)
      (by dsimp only; ring)
      (by rw [not_lt]
          exact add_nonneg (mul_self_nonneg _) (mul_self_nonneg _))
      (by rw [not_lt]
          exact add_nonneg (mul_self_nonneg _) (mul_self_nonneg _))) ?_
  dsimp only
  rfl

/-- Hex roundtrip core: stagger_x, even staggering, odd column, narrow side -/
theorem hexRound_x_even_odd_near (s t b : Nat) (j y : Int) (hs1 : 1 ≤ s) (hs2 : s ≤ 2)
    (hb : 1 ≤ b) (ht : 1 ≤ t) (hj : 0 ≤ j) (hy : 0 ≤ y) :
    TileType.hexStagInv (s + 2 * t) (2 * b) false false s
      (((s : Int) + t - 1) * (2 * j + 1) + ((s : Int) + 2 * t) / 2)
      (y * (2 * (b : Int)) + b) =
      some (2 * j + 1, y) := by
  have hbI : (1 : Int) ≤ (b : Int) := by exact_mod_cast hb
  have htI : (1 : Int) ≤ (t : Int) := by exact_mod_cast ht
  have hsI : (1 : Int) ≤ (s : Int) := by exact_mod_cast hs1
  unfold TileType.hexStagInv
  dsimp only
  simp only [Bool.false_eq_true, if_false]
  push_cast
  rw [show ((s : Int) + 2 * t - s).tdiv 2 + s - 1 = (s : Int) + t - 1
      from by
        rw [show (s : Int) + 2 * t - s = 2 * (t : Int) from by ring,
          Int.mul_tdiv_cancel_left _ (by norm_num)]
        ring,
    show ((s : Int) + 2 * t).tdiv 2 = ((s : Int) + 2 * t) / 2 from
      Int.tdiv_eq_ediv (by positivity) (by norm_num),
    show ((2 : Int) * (b : Int)).tdiv 2 = (b : Int) from
      Int.mul_tdiv_cancel_left _ (by norm_num)]
  rw [show ((s : Int) + 2 * t) / 2 = (s : Int) + t - 1 from by omega]
  rw [show ((s : Int) + t - 1) * (2 * j + 1) + ((s : Int) + t - 1) = (2 * j + 2) * ((s : Int) + t - 1) + 0 from by ring]
  refine bind_eq_some_of
    (div2_mul_add (2 * j + 2) (0) (((s : Int) + t - 1)) (by omega) (by omega)
      (by positivity) (by omega)) ?_
  dsimp only
  refine bind_eq_some_of
    (div2_mul_add (y) ((b : Int)) ((2 * (b : Int))) (by omega) (by omega)
      (by positivity) (by omega)) ?_
  dsimp only
  rw [show (2 * j + 2) * (((s : Int) + t - 1)) + (0) - (2 * j + 2) * (((s : Int) + t - 1)) = (0) from by ring,
    show (y) * ((2 * (b : Int))) + ((b : Int)) - (y) * ((2 * (b : Int))) = ((b : Int)) from by ring]
  refine bind_eq_some_of
    (show mod2 (2 * j + 2) 2 = some 0 from by
      rw [mod2_eq_some _ _ (by norm_num),
        show (2 * j + 2).tmod 2 = 0 from by
          rw [Int.tmod_eq_emod (by omega) (by norm_num)]; omega]
      norm_num) ?_
  dsimp only
  rw [if_pos (show ((0 : Int) == 1) = false by decide)]
  refine bind_eq_some_of rfl ?_
  dsimp only
  refine bind_eq_some_of
    (minByKey3_first _ _ _ _ (0)
      (((s : Int) + t - 1) * ((s : Int) + t - 1) + (b : Int) * b)
      (((s : Int) + t - 1) * ((s : Int) + t - 1) + (b : Int) * b)
      (by dsimp only; ring) (by dsimp only; ring)
      (by dsimp only; ring)
      (by rw [not_lt]
          exact add_nonneg (mul_self_nonneg _) (mul_self_nonneg _))
      (by rw [not_lt]
          exact add_nonneg (mul_self_nonneg _) (mul_self_nonneg _))) ?_
  dsimp only
  rw [show 2 * j + 2 - 1 = 2 * j + 1 from by ring]
  rfl

/-- Center roundtrip for stagger-Y hexagonal maps: querying the center of
the produced tile position recovers the coordinates. -/
theorem hex_center_roundtrip_y (a s t : Nat) (odd : Bool) (ro : RenderOrder)
    (lh x y : Int) (p : Int × Int) (ha : 1 ≤ a) (hs : 1 ≤ s) (ht : 1 ≤ t)
    (hx : 0 ≤ x) (hy : 0 ≤ y)
    (hp : (TileType.Hexagonal (2 * a) (s + 2 * t) odd true s
      ro).coord_to_pos lh x y = some p) :
    (TileType.Hexagonal (2 * a) (s + 2 * t) odd true s ro).pos_to_coord lh
      (p.1 + a) (p.2 + ((s : Int) + 2 * t) / 2) = some (x, y) := by
  rcases Int.even_or_odd y with ⟨k, hk⟩ | ⟨k, hk⟩
  · have hk2 : y = 2 * k := by omega
    subst hk2
    cases odd with
    | true =>
      have hp2 : (TileType.Hexagonal (2 * a) (s + 2 * t) true true s
          ro).coord_to_pos lh x (2 * k) =
          some (x * (2 * (a : Int)), ((s : Int) + t - 1) * (2 * k)) := by
        unfold TileType.coord_to_pos
        dsimp only
        rw [if_pos rfl]
        rw [show (2 * k).tmod 2 = 0 from by
          rw [Int.tmod_eq_emod (by omega) (by norm_num)]; omega]
        rw [if_neg (show ¬(((0 : Int) == 1) = true) by decide)]
        rw [show (s + 2 * t + s) / 2 = s + t from by omega]
        refine bind_eq_some_of
          (show u32sub (s + t) 1 = some (s + t - 1) from by
            unfold u32sub
            rw [if_pos (show 1 ≤ s + t from by omega)]) ?_
        dsimp only
        rw [show ((s + t - 1 : Nat) : Int) = (s : Int) + t - 1 from by omega,
          show ((2 * a : Nat) : Int) = 2 * (a : Int) from by omega]
        rfl
      have hpe : p = (x * (2 * (a : Int)), ((s : Int) + t - 1) * (2 * k)) :=
        (Option.some.inj (hp2.symm.trans hp)).symm
      subst hpe
      rcases Nat.lt_or_ge s 3 with hreg | hreg
      · exact hexRound_y_odd_even_near a s t x k (by omega) (by omega)
          ha ht hx (by omega)
      · exact hexRound_y_odd_even_far a s t x k (by omega)
          ha ht hx (by omega)
    | false =>
      have hp2 : (TileType.Hexagonal (2 * a) (s + 2 * t) false true s
          ro).coord_to_pos lh x (2 * k) =
          some (x * (2 * (a : Int)) + a, ((s : Int) + t - 1) * (2 * k)) := by
        unfold TileType.coord_to_pos
        dsimp only
        rw [if_pos rfl]
        rw [show (2 * k).tmod 2 = 0 from by
          rw [Int.tmod_eq_emod (by omega) (by norm_num)]; omega]
        rw [if_pos (show ((0 : Int) == 1) = false by decide)]
        rw [show (s + 2 * t + s) / 2 = s + t from by omega]
        refine bind_eq_some_of
          (show u32sub (s + t) 1 = some (s + t - 1) from by
            unfold u32sub
            rw [if_pos (show 1 ≤ s + t from by omega)]) ?_
        dsimp only
        rw [show ((s + t - 1 : Nat) : Int) = (s : Int) + t - 1 from by omega,
          show ((2 * a : Nat) : Int) = 2 * (a : Int) from by omega]
        rw [show ((2 : Int) * (a : Int)).tdiv 2 = (a : Int) from
            Int.mul_tdiv_cancel_left _ (by norm_num)]
        rfl
      have hpe : p = (x * (2 * (a : Int)) + a, ((s : Int) + t - 1) * (2 * k)) :=
        (Option.some.inj (hp2.symm.trans hp)).symm
      subst hpe
      rcases Nat.lt_or_ge s 3 with hreg | hreg
      · exact hexRound_y_even_even_near a s t x k (by omega) (by omega)
          ha ht hx (by omega)
      · exact hexRound_y_even_even_far a s t x k (by omega)
          ha ht hx (by omega)
  · have hk2 : y = 2 * k + 1 := by omega
    subst hk2
    cases odd with
    | true =>
      have hp2 : (TileType.Hexagonal (2 * a) (s + 2 * t) true true s
          ro).coord_to_pos lh x (2 * k + 1) =
          some (x * (2 * (a : Int)) + a, ((s : Int) + t - 1) * (2 * k + 1)) := by
        unfold TileType.coord_to_pos
        dsimp only
        rw [if_pos rfl]
        rw [show (2 * k + 1).tmod 2 = 1 from by
          rw [Int.tmod_eq_emod (by omega) (by norm_num)]; omega]
        rw [if_pos (show ((1 : Int) == 1) = true by decide)]
        rw [show (s + 2 * t + s) / 2 = s + t from by omega]
        refine bind_eq_some_of
          (show u32sub (s + t) 1 = some (s + t - 1) from by
            unfold u32sub
            rw [if_pos (show 1 ≤ s + t from by omega)]) ?_
        dsimp only
        rw [show ((s + t - 1 : Nat) : Int) = (s : Int) + t - 1 from by omega,
          show ((2 * a : Nat) : Int) = 2 * (a : Int) from by omega]
        rw [show ((2 : Int) * (a : Int)).tdiv 2 = (a : Int) from
            Int.mul_tdiv_cancel_left _ (by norm_num)]
        rfl
      have hpe : p = (x * (2 * (a : Int)) + a, ((s : Int) + t - 1) * (2 * k + 1)) :=
        (Option.some.inj (hp2.symm.trans hp)).symm
      subst hpe
      rcases Nat.lt_or_ge s 3 with hreg | hreg
      · exact hexRound_y_odd_odd_near a s t x k (by omega) (by omega)
          ha ht hx (by omega)
      · exact hexRound_y_odd_odd_far a s t x k (by omega)
          ha ht hx (by omega)
    | false =>
      have hp2 : (TileType.Hexagonal (2 * a) (s + 2 * t) false true s
          ro).coord_to_pos lh x (2 * k + 1) =
          some (x * (2 * (a : Int)), ((s : Int) + t - 1) * (2 * k + 1)) := by
        unfold TileType.coord_to_pos
        dsimp only
        rw [if_pos rfl]
        rw [show (2 * k + 1).tmod 2 = 1 from by
          rw [Int.tmod_eq_emod (by omega) (by norm_num)]; omega]
        rw [if_neg (show ¬(((1 : Int) == 1) = false) by decide)]
        rw [show (s + 2 * t + s) / 2 = s + t from by omega]
        refine bind_eq_some_of
          (show u32sub (s + t) 1 = some (s + t - 1) from by
            unfold u32sub
            rw [if_pos (show 1 ≤ s + t from by omega)]) ?_
        dsimp only
        rw [show ((s + t - 1 : Nat) : Int) = (s : Int) + t - 1 from by omega,
          show ((2 * a : Nat) : Int) = 2 * (a : Int) from by omega]
        rfl
      have hpe : p = (x * (2 * (a : Int)), ((s : Int) + t - 1) * (2 * k + 1)) :=
        (Option.some.inj (hp2.symm.trans hp)).symm
      subst hpe
      rcases Nat.lt_or_ge s 3 with hreg | hreg
      · exact hexRound_y_even_odd_near a s t x k (by omega) (by omega)
          ha ht hx (by omega)
      · exact hexRound_y_even_odd_far a s t x k (by omega)
          ha ht hx (by omega)

/-- Center roundtrip for stagger-X hexagonal maps: querying the center of
the produced tile position recovers the coordinates. -/
theorem hex_center_roundtrip_x (s t b : Nat) (odd : Bool) (ro : RenderOrder)
    (lh x y : Int) (p : Int × Int) (hb : 1 ≤ b) (hs : 1 ≤ s) (ht : 1 ≤ t)
    (hx : 0 ≤ x) (hy : 0 ≤ y)
    (hp : (TileType.Hexagonal (s + 2 * t) (2 * b) odd false s
      ro).coord_to_pos lh x y = some p) :
    (TileType.Hexagonal (s + 2 * t) (2 * b) odd false s ro).pos_to_coord lh
      (p.1 + ((s : Int) + 2 * t) / 2) (p.2 + b) = some (x, y) := by
  rcases Int.even_or_odd x with ⟨j, hj⟩ | ⟨j, hj⟩
  · have hj2 : x = 2 * j := by omega
    subst hj2
    cases odd with
    | true =>
      have hp2 : (TileType.Hexagonal (s + 2 * t) (2 * b) true false s
          ro).coord_to_pos lh (2 * j) y =
          some (((s : Int) + t - 1) * (2 * j), y * (2 * (b : Int))) := by
        unfold TileType.coord_to_pos
        dsimp only
        rw [if_neg (show ¬(false = true) by decide)]
        rw [show (2 * j).tmod 2 = 0 from by
          rw [Int.tmod_eq_emod (by omega) (by norm_num)]; omega]
        rw [if_neg (show ¬(((0 : Int) == 1) = true) by decide)]
        rw [show (s + 2 * t + s) / 2 = s + t from by omega]
        refine bind_eq_some_of
          (show u32sub (s + t) 1 = some (s + t - 1) from by
            unfold u32sub
            rw [if_pos (show 1 ≤ s + t from by omega)]) ?_
        dsimp only
        rw [show ((s + t - 1 : Nat) : Int) = (s : Int) + t - 1 from by omega,
          show ((2 * b : Nat) : Int) = 2 * (b : Int) from by omega]
        rfl
      have hpe : p = (((s : Int) + t - 1) * (2 * j), y * (2 * (b : Int))) :=
        (Option.some.inj (hp2.symm.trans hp)).symm
      subst hpe
      rcases Nat.lt_or_ge s 3 with hreg | hreg
      · exact hexRound_x_odd_even_near s t b j y (by omega) (by omega)
          hb ht (by omega) hy
      · exact hexRound_x_odd_even_far s t b j y (by omega)
          hb ht (by omega) hy
    | false =>
      have hp2 : (TileType.Hexagonal (s + 2 * t) (2 * b) false false s
          ro).coord_to_pos lh (2 * j) y =
          some (((s : Int) + t - 1) * (2 * j), y * (2 * (b : Int)) + b) := by
        unfold TileType.coord_to_pos
        dsimp only
        rw [if_neg (show ¬(false = true) by decide)]
        rw [show (2 * j).tmod 2 = 0 from by
          rw [Int.tmod_eq_emod (by omega) (by norm_num)]; omega]
        rw [if_pos (show ((0 : Int) == 1) = false by decide)]
        rw [show (s + 2 * t + s) / 2 = s + t from by omega]
        refine bind_eq_some_of
          (show u32sub (s + t) 1 = some (s + t - 1) from by
            unfold u32sub
            rw [if_pos (show 1 ≤ s + t from by omega)]) ?_
        dsimp only
        rw [show ((s + t - 1 : Nat) : Int) = (s : Int) + t - 1 from by omega,
          show ((2 * b : Nat) : Int) = 2 * (b : Int) from by omega]
        rw [show ((2 : Int) * (b : Int)).tdiv 2 = (b : Int) from
            Int.mul_tdiv_cancel_left _ (by norm_num)]
        rfl
      have hpe : p = (((s : Int) + t - 1) * (2 * j), y * (2 * (b : Int)) + b) :=
        (Option.some.inj (hp2.symm.trans hp)).symm
      subst hpe
      rcases Nat.lt_or_ge s 3 with hreg | hreg
      · exact hexRound_x_even_even_near s t b j y (by omega) (by omega)
          hb ht (by omega) hy
      · exact hexRound_x_even_even_far s t b j y (by omega)
          hb ht (by omega) hy
  · have hj2 : x = 2 * j + 1 := by omega
    subst hj2
    cases odd with
    | true =>
      have hp2 : (TileType.Hexagonal (s + 2 * t) (2 * b) true false s
          ro).coord_to_pos lh (2 * j + 1) y =
          some (((s : Int) + t - 1) * (2 * j + 1), y * (2 * (b : Int)) + b) := by
        unfold TileType.coord_to_pos
        dsimp only
        rw [if_neg (show ¬(false = true) by decide)]
        rw [show (2 * j + 1).tmod 2 = 1 from by
          rw [Int.tmod_eq_emod (by omega) (by norm_num)]; omega]
        rw [if_pos (show ((1 : Int) == 1) = true by decide)]
        rw [show (s + 2 * t + s) / 2 = s + t from by omega]
        refine bind_eq_some_of
          (show u32sub (s + t) 1 = some (s + t - 1) from by
            unfold u32sub
            rw [if_pos (show 1 ≤ s + t from by omega)]) ?_
        dsimp only
        rw [show ((s + t - 1 : Nat) : Int) = (s : Int) + t - 1 from by omega,
          show ((2 * b : Nat) : Int) = 2 * (b : Int) from by omega]
        rw [show ((2 : Int) * (b : Int)).tdiv 2 = (b : Int) from
            Int.mul_tdiv_cancel_left _ (by norm_num)]
        rfl
      have hpe : p = (((s : Int) + t - 1) * (2 * j + 1), y * (2 * (b : Int)) + b) :=
        (Option.some.inj (hp2.symm.trans hp)).symm
      subst hpe
      rcases Nat.lt_or_ge s 3 with hreg | hreg
      · exact hexRound_x_odd_odd_near s t b j y (by omega) (by omega)
          hb ht (by omega) hy
      · exact hexRound_x_odd_odd_far s t b j y (by omega)
          hb ht (by omega) hy
    | false =>
      have hp2 : (TileType.Hexagonal (s + 2 * t) (2 * b) false false s
          ro).coord_to_pos lh (2 * j + 1) y =
          some (((s : Int) + t - 1) * (2 * j + 1), y * (2 * (b : Int))) := by
        unfold TileType.coord_to_pos
        dsimp only
        rw [if_neg (show ¬(false = true) by decide)]
        rw [show (2 * j + 1).tmod 2 = 1 from by
          rw [Int.tmod_eq_emod (by omega) (by norm_num)]; omega]
        rw [if_neg (show ¬(((1 : Int) == 1) = false) by decide)]
        rw [show (s + 2 * t + s) / 2 = s + t from by omega]
        refine bind_eq_some_of
          (show u32sub (s + t) 1 = some (s + t - 1) from by
            unfold u32sub
            rw [if_pos (show 1 ≤ s + t from by omega)]) ?_
        dsimp only
        rw [show ((s + t - 1 : Nat) : Int) = (s : Int) + t - 1 from by omega,
          show ((2 * b : Nat) : Int) = 2 * (b : Int) from by omega]
        rfl
      have hpe : p = (((s : Int) + t - 1) * (2 * j + 1), y * (2 * (b : Int))) :=
        (Option.some.inj (hp2.symm.trans hp)).symm
      subst hpe
      rcases Nat.lt_or_ge s 3 with hreg | hreg
      · exact hexRound_x_even_odd_near s t b j y (by omega) (by omega)
          hb ht (by omega) hy
      · exact hexRound_x_even_odd_far s t b j y (by omega)
          hb ht (by omega) hy


/-- C1 (counterexample): for the staggered isometric tile type with width 8
and height 4, pos_to_coord applied to the position coord_to_pos returns for
cell (0,0) yields (-1,-1), not (0,0): coord_to_pos returns the top-left
pixel of the tile rectangle, which the nearest-center inverse assigns to a
neighbouring cell, so the round trip fails as claimed. -/
theorem center_roundtrip_counterexample :
    (TileType.Isometric 8 4 true true true .RightDown).coord_to_pos 0 0 0 =
      some (0, 0) ∧
    (TileType.Isometric 8 4 true true true .RightDown).pos_to_coord 0 0 0 =
      some (-1, -1) := by
  exact ⟨by decide, by decide⟩

/-- C1 (amended): the round trip holds on tile centers. For staggered
isometric maps with even tile size 2a × 2b, and for staggered hexagonal
maps whose staggered dimension is s + 2t (side length s ≥ 1, t ≥ 1) with
the other dimension even, pos_to_coord applied to the center of the tile
rectangle produced by coord_to_pos — its top-left pixel plus half the tile
size in each axis — returns exactly (x, y) for every nonnegative tile
coordinate (x, y), for both stagger parities and both stagger axes. -/
theorem staggered_center_roundtrip (a b s t : Nat) (odd sy : Bool)
    (ro : RenderOrder) (lh x y : Int) (pI pY pX : Int × Int)
    (ha : 1 ≤ a) (hb : 1 ≤ b) (hs : 1 ≤ s) (ht : 1 ≤ t)
    (hx : 0 ≤ x) (hy : 0 ≤ y) :
    ((TileType.Isometric (2 * a) (2 * b) true odd sy ro).coord_to_pos
        lh x y = some pI →
      (TileType.Isometric (2 * a) (2 * b) true odd sy ro).pos_to_coord
        lh (pI.1 + a) (pI.2 + b) = some (x, y)) ∧
    ((TileType.Hexagonal (2 * a) (s + 2 * t) odd true s ro).coord_to_pos
        lh x y = some pY →
      (TileType.Hexagonal (2 * a) (s + 2 * t) odd true s ro).pos_to_coord
        lh (pY.1 + a) (pY.2 + ((s : Int) + 2 * t) / 2) = some (x, y)) ∧
    ((TileType.Hexagonal (s + 2 * t) (2 * b) odd false s ro).coord_to_pos
        lh x y = some pX →
      (TileType.Hexagonal (s + 2 * t) (2 * b) odd false s ro).pos_to_coord
        lh (pX.1 + ((s : Int) + 2 * t) / 2) (pX.2 + b) = some (x, y)) :=
  ⟨fun hp => iso_center_roundtrip a b odd sy ro lh x y pI ha hb hx hy hp,
   fun hp => hex_center_roundtrip_y a s t odd ro lh x y pY ha hs ht hx hy hp,
   fun hp => hex_center_roundtrip_x s t b odd ro lh x y pX hb hs ht hx hy hp⟩

/-- C1 witness: the amended center round trip evaluated on a concrete
staggered isometric map with 2 × 2 tiles at cell (0, 0). -/
theorem staggered_center_roundtrip_witness :
    (TileType.Isometric 2 2 true true true .RightDown).pos_to_coord 0 1 1 =
      some (0, 0) :=
  (staggered_center_roundtrip 1 1 1 1 true true .RightDown 0 0 0
      (0, 0) (0, 0) (0, 0) (by decide) (by decide) (by decide) (by decide)
      (by decide) (by decide)).1 (by decide)
